import Mathlib

/-!
# GODRIVE: storage / metadata subsystem

A shallow embedding of `internal/models/models.go`, `internal/storage/storage.go`
and `internal/handlers/handlers.go`, followed by theorems about the handlers.

The handlers talk to two collaborators that live outside the repository:

* the GORM handle `h.DB` (over SQLite).  It is modelled by two tables (lists of
  rows) and by `gorm.Statement`, the chainable query builder.
  Both models carry a `gorm.DeletedAt` column, so every statement that is not
  `Unscoped()` gets the clause `deleted_at IS NULL` added by GORM; this holds for
  `Find`/`First`/`Scan` (query clauses), for `Update`/`Save` (update clauses) and
  for `Delete`, which becomes `UPDATE .. SET deleted_at = now`.
* the file system behind `LocalStorage`, modelled by `Disk`.

Table rows hold column values: `parent_folder_id` is a nullable signed 64-bit
integer.  A Go `uint` from `2 ^ 63` up is written to it wrapped (negative), and
a negative column value cannot be read back into a `*uint`: `First` and `Find`
fail when a row they return holds one.

The `:id` route parameter and the `parent_id` query parameter are the raw
strings of the request.  `First(&row, idStr)` looks up by primary key when
`strconv.Atoi` accepts the string, and otherwise splices it into the `WHERE`
clause as a condition; `parent_folder_id = ?` compares the column with the
bound text.  What the engine makes of a condition text, and of a bound text
that is not a plain decimal numeral, is not fixed here: it is the `Engine`
parameter, and the theorems hold for every engine.  A condition text is taken
to act as one parenthesised condition next to the soft-delete scope; the
theorems about sequences of requests are stated for requests whose ids are
integer numerals, where nothing depends on that.

Timestamps are natural numbers supplied by the caller (`now`), byte streams are
lists of bytes.  `Create` is taken to succeed.  Storage does fail: `os.Create`
may refuse a path and a request stream may break off.
-/

namespace GoDrive

/-! ## internal/models/models.go -/

abbrev Time := Nat

abbrev Byte := Nat

/-- The `models.File` row. `DeletedAt = none` is SQL `NULL`, a live row. In a table row
`ParentFolderID` is the column value; in a record held by a handler it is the `uint`. -/
structure File where
  ID : Nat
  CreatedAt : Time
  UpdatedAt : Time
  DeletedAt : Option Time
  Name : String
  Size : Nat
  IsStarred : Bool
  ParentFolderID : Option Int
  StoragePath : String
deriving DecidableEq, Repr

/-- The `models.Folder` row, with `ParentFolderID` as in `File`. -/
structure Folder where
  ID : Nat
  CreatedAt : Time
  UpdatedAt : Time
  DeletedAt : Option Time
  Name : String
  IsStarred : Bool
  ParentFolderID : Option Int
deriving DecidableEq, Repr

/-! ## The GORM handle -/

namespace gorm

/-- Columns that the handlers' statements read, shared by both models. -/
class Model (α : Type) where
  ID : α → Nat
  CreatedAt : α → Time
  DeletedAt : α → Option Time
  IsStarred : α → Bool
  ParentFolderID : α → Option Int

/-- Value of a string that consists of decimal digits only, digit by digit. -/
def digits : List Char → Nat → Option Nat
  | [], acc => some acc
  | c :: cs, acc =>
    if 48 ≤ c.toNat ∧ c.toNat ≤ 57 then digits cs (acc * 10 + (c.toNat - 48)) else none

/-- A non-empty string of decimal digits read as a number; `none` otherwise. -/
def decimal (s : String) : Option Nat :=
  match s.data with
  | [] => none
  | cs => digits cs 0

/-- Go `strconv.Atoi` with a 64-bit `int`: an optional sign, then decimal digits, and a
value that fits; `none` is the error. -/
def Atoi (s : String) : Option Int :=
  match s.data with
  | [] => none
  | c :: cs =>
    if c.toNat = 45 then
      match cs with
      | [] => none
      | _ => (digits cs 0).bind (fun n => if n ≤ 2 ^ 63 then some (-(n : Int)) else none)
    else if c.toNat = 43 then
      match cs with
      | [] => none
      | _ => (digits cs 0).bind (fun n => if n < 2 ^ 63 then some (n : Int) else none)
    else (digits (c :: cs) 0).bind (fun n => if n < 2 ^ 63 then some (n : Int) else none)

/-- A Go `uint` as it arrives in a signed 64-bit column: from `2 ^ 63` up it wraps. -/
def int64 (v : Int) : Int := if v < 2 ^ 63 then v else v - 2 ^ 64

/-- Whether a row can be read back into its Go struct: the parent column must fit `*uint`. -/
def scans {α : Type} [Model α] (r : α) : Bool :=
  match Model.ParentFolderID r with
  | none => true
  | some v => decide (0 ≤ v)

/-- The `Where(...)` conditions that occur in the handlers. -/
inductive Cond where
  /-- The condition `is_starred = ?`. -/
  | isStarred (v : Bool)
  /-- The condition `deleted_at IS NOT NULL`. -/
  | deletedAtNotNull
  /-- The condition `parent_folder_id IS NULL`. -/
  | parentIsNull
  /-- The condition `parent_folder_id = ?` with the raw query-string value bound. -/
  | parentEq (arg : String)
  /-- The condition `1 = 0`. -/
  | never
deriving DecidableEq, Repr

/-- Truth value of a condition on one row. In `parent_folder_id = ?` a `NULL` column equals
nothing. A bound text of decimal digits is compared as the number it spells, which no
column value equals from `2 ^ 63` up; for any other text (`+1`, `1.0`, `-1`, ...) the
verdict of the engine's numeric affinity is `textEq`. -/
def Cond.eval {α : Type} [Model α] (textEq : String → Int → Bool) : Cond → α → Bool
  | .isStarred v, r => Model.IsStarred r == v
  | .deletedAtNotNull, r => (Model.DeletedAt r).isSome
  | .parentIsNull, r => (Model.ParentFolderID r).isNone
  | .parentEq arg, r =>
    match Model.ParentFolderID r with
    | none => false
    | some v =>
      match decimal arg with
      | some n => decide (n < 2 ^ 63) && v == (n : Int)
      | none => textEq arg v
  | .never, _ => false

/-- A chainable statement on one model: `h.DB.Model(&models.X{})` is the default value,
which is soft-delete scoped. -/
structure Statement where
  unscoped : Bool := false
  conds : List Cond := []
  orderCreatedAtDesc : Bool := false
  limit : Option Nat := none
deriving DecidableEq, Repr

/-- The call `.Unscoped()`. -/
def Statement.Unscoped (q : Statement) : Statement := { q with unscoped := true }

/-- The call `.Where(cond, args...)`. -/
def Statement.Where (q : Statement) (c : Cond) : Statement := { q with conds := q.conds ++ [c] }

/-- The call `.Order("created_at desc")`. -/
def Statement.Order (q : Statement) : Statement := { q with orderCreatedAtDesc := true }

/-- The call `.Limit(n)`. -/
def Statement.Limit (q : Statement) (n : Nat) : Statement := { q with limit := some n }

/-- The `WHERE` clause of a statement: the soft-delete scope `deleted_at IS NULL` unless the
statement is unscoped, and every condition added with `Where`. -/
def Statement.selects {α : Type} [Model α] (textEq : String → Int → Bool) (q : Statement)
    (r : α) : Bool :=
  (q.unscoped || (Model.DeletedAt r).isNone) && q.conds.all (fun c => c.eval textEq r)

/-- The rows a `SELECT` of the statement returns: selected, ordered (ties keep table
order) and limited. -/
def Statement.rows {α : Type} [Model α] (textEq : String → Int → Bool) (q : Statement)
    (table : List α) : List α :=
  let sel := table.filter (q.selects textEq)
  let ord :=
    if q.orderCreatedAtDesc then
      sel.insertionSort (fun a b => Model.CreatedAt b ≤ Model.CreatedAt a)
    else sel
  match q.limit with
  | none => ord
  | some n => ord.take n

/-- The call `.Find(&rows)`: the returned rows, or `none` (an error) when one of them cannot
be read back. -/
def Statement.Find {α : Type} [Model α] (textEq : String → Int → Bool) (q : Statement)
    (table : List α) : Option (List α) :=
  if (q.rows textEq table).all scans then some (q.rows textEq table) else none

/-- The row with the smallest primary key (`ORDER BY id LIMIT 1`). -/
def firstByID {α : Type} [Model α] : List α → Option α
  | [] => none
  | r :: rs =>
    match firstByID rs with
    | none => some r
    | some m => if Model.ID r ≤ Model.ID m then some r else some m

/-- The condition `First(&row, idStr)` adds for its string argument: the primary key equals
the number when `Atoi` accepts the string; otherwise the string itself is the condition
and `raw` gives its truth value on each row (`none`: the statement fails). -/
def keyCond {α : Type} [Model α] (raw : String → Option (α → Bool)) (idStr : String) :
    Option (α → Bool) :=
  match Atoi idStr with
  | some z => some (fun r => (Model.ID r : Int) == z)
  | none => raw idStr

/-- The call `.First(&row, idStr)`: of the rows that the statement and the key condition
select, the one with the smallest primary key; `none` stands for every error
(`ErrRecordNotFound`, a failing statement, a row that cannot be read back). -/
def Statement.First {α : Type} [Model α] (textEq : String → Int → Bool)
    (raw : String → Option (α → Bool)) (q : Statement) (table : List α) (idStr : String) :
    Option α :=
  match keyCond raw idStr with
  | none => none
  | some c =>
    match firstByID (table.filter (fun r => q.selects textEq r && c r)) with
    | none => none
    | some r => if scans r then some r else none

/-- An `UPDATE` of the row with primary key `id`, as issued by `Model(&row).Update`,
`Save(&row)` and the soft `Delete(&row)`: the statement's `WHERE` clause (with its
soft-delete scope) decides whether the row is touched. -/
def Statement.Exec {α : Type} [Model α] (textEq : String → Int → Bool) (q : Statement)
    (table : List α) (id : Nat) (set : α → α) : List α :=
  table.map (fun r => if q.selects textEq r && Model.ID r == id then set r else r)

/-- The primary key SQLite gives to the next inserted row: one more than the largest in use. -/
def nextID {α : Type} [Model α] (rows : List α) : Nat :=
  (rows.map Model.ID).foldr max 0 + 1

/-- The database behind `h.DB`: the two migrated tables. -/
structure DB where
  files : List File
  folders : List Folder
deriving DecidableEq, Repr

end gorm

instance : gorm.Model File where
  ID := File.ID
  CreatedAt := File.CreatedAt
  DeletedAt := File.DeletedAt
  IsStarred := File.IsStarred
  ParentFolderID := File.ParentFolderID

instance : gorm.Model Folder where
  ID := Folder.ID
  CreatedAt := Folder.CreatedAt
  DeletedAt := Folder.DeletedAt
  IsStarred := Folder.IsStarred
  ParentFolderID := Folder.ParentFolderID

/-- What is left open about GORM over SQLite. `textEq arg v` is the verdict on
`parent_folder_id = ?` for a column value `v` and a bound text `arg` that is not a plain
decimal numeral. `fileWhere db s` and `folderWhere db s` give, for a condition text `s`
that `Atoi` rejects, its truth value on each row of the table in the database `db`, or
`none` when the statement fails. -/
structure Engine where
  textEq : String → Int → Bool
  fileWhere : gorm.DB → String → Option (File → Bool)
  folderWhere : gorm.DB → String → Option (Folder → Bool)

/-! ## internal/storage/storage.go -/

/-- The file system: regular files with their content, and the paths at which `os.Create`
fails (directories, missing parents, no permission). -/
structure Disk where
  files : List (String × List Byte)
  unwritable : List String
deriving DecidableEq, Repr

/-- The call `os.Open(path)` read to the end: the content, or `none` when the path is not a file. -/
def Disk.Open (d : Disk) (path : String) : Option (List Byte) :=
  (d.files.find? (fun e => e.1 == path)).map (fun e => e.2)

/-- The file at `path` created or truncated and then holding `bytes`. -/
def Disk.put (d : Disk) (path : String) (bytes : List Byte) : Disk :=
  { d with files := (path, bytes) :: d.files.filter (fun e => e.1 != path) }

/-- An `io.Reader`: the bytes it delivers and whether it then ends in an error
instead of `io.EOF`. -/
structure Reader where
  data : List Byte
  fails : Bool
deriving DecidableEq, Repr

/-- The `LocalStorage` provider together with the disk it writes to. -/
structure LocalStorage where
  BaseDir : String
  disk : Disk
deriving DecidableEq, Repr

/-- Go `(s *LocalStorage) SaveFile`. `join` is `filepath.Join`. The result is the
`(path, written)` pair, `none` for an error, and the storage afterwards: once `os.Create`
succeeded the file holds whatever the reader delivered, also when `io.Copy` fails. -/
def LocalStorage.SaveFile (join : String → String → String) (s : LocalStorage)
    (reader : Reader) (filename : String) : Option (String × Nat) × LocalStorage :=
  let path := join s.BaseDir filename
  if path ∈ s.disk.unwritable then (none, s)
  else
    let s1 := { s with disk := s.disk.put path reader.data }
    if reader.fails then (none, s1) else (some (path, reader.data.length), s1)

/-- Go `(s *LocalStorage) GetFile`, read to the end. -/
def LocalStorage.GetFile (s : LocalStorage) (path : String) : Option (List Byte) :=
  s.disk.Open path

/-! ## internal/handlers/handlers.go -/

/-- What a handler hands to `c.JSON` or `c.Stream`. -/
inductive Body where
  | error (msg : String)
  | file (f : File)
  | folder (d : Folder)
  | listing (files : List File) (folders : List Folder)
  | status (s : String)
  | quota (used : Nat) (limit : Nat)
  | stream (disposition : String) (bytes : List Byte)
deriving DecidableEq, Repr

/-- An HTTP response: status code and body. -/
structure Response where
  status : Nat
  body : Body
deriving DecidableEq, Repr

/-- Go `Handler`: the database handle and the storage provider, as state. -/
structure Handler where
  DB : gorm.DB
  Storage : LocalStorage
deriving DecidableEq, Repr

/-- A `multipart.FileHeader`: the file name and what `file.Open()` gives (`none`: error). -/
structure FileHeader where
  Filename : String
  Open : Option Reader
deriving DecidableEq, Repr

/-- The upload form: `c.FormFile("file")` (`none`: error) and `c.FormValue("parent_id")`. -/
structure UploadRequest where
  file : Option FileHeader
  parent_id : String
deriving DecidableEq, Repr

/-- Go `strconv.ParseUint(s, 10, bitSize)`: digits only, value below `2 ^ bitSize`. -/
def ParseUint (s : String) (bitSize : Nat) : Option Nat :=
  match gorm.decimal s with
  | some n => if n < 2 ^ bitSize then some n else none
  | none => none

/-- The handler state after the `files` table changed to `rows`. -/
def Handler.withFiles (h : Handler) (rows : List File) : Handler :=
  { h with DB := { h.DB with files := rows } }

/-- The handler state after the `folders` table changed to `rows`. -/
def Handler.withFolders (h : Handler) (rows : List Folder) : Handler :=
  { h with DB := { h.DB with folders := rows } }

/-- The table row `Create` writes for a File record: the `uint` parent as a column value. -/
def File.row (f : File) : File :=
  { f with ParentFolderID := f.ParentFolderID.map gorm.int64 }

/-- The table row `Create` writes for a Folder record: the `uint` parent as a column value. -/
def Folder.row (d : Folder) : Folder :=
  { d with ParentFolderID := d.ParentFolderID.map gorm.int64 }

/-- Go `UploadHandler`. -/
def UploadHandler (join : String → String → String) (h : Handler) (req : UploadRequest)
    (now : Time) : Response × Handler :=
  match req.file with
  | none => (⟨400, .error "Invalid file"⟩, h)
  | some file =>
    match file.Open with
    | none => (⟨500, .error "Could not open file"⟩, h)
    | some src =>
      let parentIDStr := req.parent_id
      let parentID : Option Nat :=
        if parentIDStr ≠ "" ∧ parentIDStr ≠ "null" then ParseUint parentIDStr 32 else none
      match h.Storage.SaveFile join src file.Filename with
      | (none, st) => (⟨500, .error "Failed to save file"⟩, { h with Storage := st })
      | (some (path, size), st) =>
        let fileRecord : File :=
          { ID := gorm.nextID h.DB.files, CreatedAt := now, UpdatedAt := now, DeletedAt := none,
            Name := file.Filename, Size := size, IsStarred := false,
            ParentFolderID := parentID.map Int.ofNat, StoragePath := path }
        (⟨200, .file fileRecord⟩,
          { DB := { h.DB with files := h.DB.files ++ [fileRecord.row] }, Storage := st })

/-- The two statements `BrowseHandler` builds for a view and a `parent_id`. -/
def browseQueries (view parentIDStr : String) : gorm.Statement × gorm.Statement :=
  let fileQuery : gorm.Statement := {}
  let folderQuery : gorm.Statement := {}
  if view = "recent" then
    ((fileQuery.Order).Limit 50, folderQuery.Where .never)
  else if view = "starred" then
    (fileQuery.Where (.isStarred true), folderQuery.Where (.isStarred true))
  else if view = "trash" then
    ((fileQuery.Unscoped).Where .deletedAtNotNull, (folderQuery.Unscoped).Where .deletedAtNotNull)
  else if parentIDStr = "" ∨ parentIDStr = "null" then
    (fileQuery.Where .parentIsNull, folderQuery.Where .parentIsNull)
  else
    (fileQuery.Where (.parentEq parentIDStr), folderQuery.Where (.parentEq parentIDStr))

/-- Go `BrowseHandler`; an absent query parameter is the empty string. -/
def BrowseHandler (eng : Engine) (h : Handler) (view parentIDStr : String) : Response :=
  let q := browseQueries view parentIDStr
  match q.1.Find eng.textEq h.DB.files with
  | none => ⟨500, .error "Failed to fetch files"⟩
  | some files =>
    match q.2.Find eng.textEq h.DB.folders with
    | none => ⟨500, .error "Failed to fetch folders"⟩
    | some folders => ⟨200, .listing files folders⟩

/-- Go `ToggleStarHandler`. `h.DB.Save(&row)` writes every column of the loaded record back
to the row with its key and stamps `UpdatedAt`, on the record too. -/
def ToggleStarHandler (eng : Engine) (h : Handler) (itemType idStr : String) (now : Time) :
    Response × Handler :=
  let db : gorm.Statement := {}
  if itemType = "file" then
    match db.First eng.textEq (eng.fileWhere h.DB) h.DB.files idStr with
    | none => (⟨404, .error "Not found"⟩, h)
    | some file =>
      let file := { file with IsStarred := !file.IsStarred }
      let file := { file with UpdatedAt := now }
      (⟨200, .file file⟩,
        h.withFiles (db.Exec eng.textEq h.DB.files file.ID (fun _ => file)))
  else
    match db.First eng.textEq (eng.folderWhere h.DB) h.DB.folders idStr with
    | none => (⟨404, .error "Not found"⟩, h)
    | some folder =>
      let folder := { folder with IsStarred := !folder.IsStarred }
      let folder := { folder with UpdatedAt := now }
      (⟨200, .folder folder⟩,
        h.withFolders (db.Exec eng.textEq h.DB.folders folder.ID (fun _ => folder)))

/-- Go `ToggleTrashHandler`. The lookup is `h.DB.Unscoped().First`; the two writes,
`h.DB.Model(&file).Update("deleted_at", nil)` and `h.DB.Delete(&file)`, are issued on
`h.DB` itself and therefore carry the soft-delete scope. -/
def ToggleTrashHandler (eng : Engine) (h : Handler) (itemType idStr restoreParam : String)
    (now : Time) : Response × Handler :=
  let db : gorm.Statement := {}
  let restore := restoreParam = "true"
  if itemType = "file" then
    match (db.Unscoped).First eng.textEq (eng.fileWhere h.DB) h.DB.files idStr with
    | none => (⟨404, .error "Not found"⟩, h)
    | some file =>
      if restore then
        (⟨200, .status "ok"⟩,
          h.withFiles (db.Exec eng.textEq h.DB.files file.ID
            (fun r => { r with DeletedAt := none, UpdatedAt := now })))
      else
        (⟨200, .status "ok"⟩,
          h.withFiles (db.Exec eng.textEq h.DB.files file.ID
            (fun r => { r with DeletedAt := some now })))
  else
    match (db.Unscoped).First eng.textEq (eng.folderWhere h.DB) h.DB.folders idStr with
    | none => (⟨404, .error "Not found"⟩, h)
    | some folder =>
      if restore then
        (⟨200, .status "ok"⟩,
          h.withFolders (db.Exec eng.textEq h.DB.folders folder.ID
            (fun r => { r with DeletedAt := none, UpdatedAt := now })))
      else
        (⟨200, .status "ok"⟩,
          h.withFolders (db.Exec eng.textEq h.DB.folders folder.ID
            (fun r => { r with DeletedAt := some now })))

/-- Go `StorageQuotaHandler`: `Select("ifnull(sum(size), 0)")` on the scoped file model.
SQLite's `sum` fails when the signed 64-bit sum overflows; the handler ignores the error
and `totalSize` keeps its zero value. -/
def StorageQuotaHandler (eng : Engine) (h : Handler) : Response :=
  let db : gorm.Statement := {}
  let sum := ((db.rows eng.textEq h.DB.files).map File.Size).sum
  let totalSize := if sum < 2 ^ 63 then sum else 0
  ⟨200, .quota totalSize (15 * 1024 * 1024 * 1024)⟩

/-- The JSON body of `CreateFolderHandler`: the name and the number under `parent_id`. -/
structure FolderRequest where
  Name : String
  ParentID : Option Nat
deriving DecidableEq, Repr

/-- Go `CreateFolderHandler`. `c.Bind` fails on `req = none`, a body that is not the JSON it
expects, and on a `parent_id` that does not fit the `*uint` field. -/
def CreateFolderHandler (h : Handler) (req : Option FolderRequest) (now : Time) :
    Response × Handler :=
  match req with
  | none => (⟨400, .error "Invalid request"⟩, h)
  | some req =>
    if req.ParentID.any (fun p => decide (2 ^ 64 ≤ p)) then
      (⟨400, .error "Invalid request"⟩, h)
    else
      let folder : Folder :=
        { ID := gorm.nextID h.DB.folders, CreatedAt := now, UpdatedAt := now,
          DeletedAt := none, Name := req.Name, IsStarred := false,
          ParentFolderID := req.ParentID.map Int.ofNat }
      (⟨200, .folder folder⟩, h.withFolders (h.DB.folders ++ [folder.row]))

/-- The JSON body of `RenameHandler`. -/
structure RenameRequest where
  Name : String
deriving DecidableEq, Repr

/-- Go `RenameHandler`; `req = none` is a body that `c.Bind` rejects. -/
def RenameHandler (eng : Engine) (h : Handler) (req : Option RenameRequest)
    (itemType idStr : String) (now : Time) : Response × Handler :=
  let db : gorm.Statement := {}
  match req with
  | none => (⟨400, .error "Invalid request"⟩, h)
  | some req =>
    if itemType = "file" then
      match db.First eng.textEq (eng.fileWhere h.DB) h.DB.files idStr with
      | none => (⟨404, .error "File not found"⟩, h)
      | some file =>
        let file := { file with Name := req.Name }
        let file := { file with UpdatedAt := now }
        (⟨200, .file file⟩,
          h.withFiles (db.Exec eng.textEq h.DB.files file.ID (fun _ => file)))
    else if itemType = "folder" then
      match db.First eng.textEq (eng.folderWhere h.DB) h.DB.folders idStr with
      | none => (⟨404, .error "Folder not found"⟩, h)
      | some folder =>
        let folder := { folder with Name := req.Name }
        let folder := { folder with UpdatedAt := now }
        (⟨200, .folder folder⟩,
          h.withFolders (db.Exec eng.textEq h.DB.folders folder.ID (fun _ => folder)))
    else (⟨400, .error "Invalid type"⟩, h)

/-- Go `DownloadHandler`; `downloadParam` is the `download` query parameter. -/
def DownloadHandler (eng : Engine) (h : Handler) (idStr downloadParam : String) : Response :=
  let db : gorm.Statement := {}
  match db.First eng.textEq (eng.fileWhere h.DB) h.DB.files idStr with
  | none => ⟨404, .error "File not found"⟩
  | some file =>
    match h.Storage.GetFile file.StoragePath with
    | none => ⟨500, .error "Could not read file"⟩
    | some f =>
      let disposition :=
        if downloadParam = "true" then "attachment; filename=\"" ++ file.Name ++ "\""
        else "inline"
      ⟨200, .stream disposition f⟩

/-- The `files` array of a browse response. -/
def Response.files (r : Response) : List File :=
  match r.body with
  | .listing files _ => files
  | _ => []

/-- The `folders` array of a browse response. -/
def Response.folders (r : Response) : List Folder :=
  match r.body with
  | .listing _ folders => folders
  | _ => []

/-- The `used` field of a quota response. -/
def Response.used (r : Response) : Option Nat :=
  match r.body with
  | .quota used _ => some used
  | _ => none

/-! ## main.go: the routes -/

/-- One request to the `/api` group, by route. -/
inductive Request where
  | browse (view parentIDStr : String)
  | upload (req : UploadRequest)
  | folder (req : Option FolderRequest)
  | rename (req : Option RenameRequest) (itemType idStr : String)
  | content (idStr downloadParam : String)
  | storage
  | star (itemType idStr : String)
  | trash (itemType idStr restoreParam : String)
deriving DecidableEq, Repr

/-- Whether the `:id` of a request, if it has one, is an integer numeral. -/
def Request.plain : Request → Bool
  | .rename _ _ idStr => (gorm.Atoi idStr).isSome
  | .content idStr _ => (gorm.Atoi idStr).isSome
  | .star _ idStr => (gorm.Atoi idStr).isSome
  | .trash _ idStr _ => (gorm.Atoi idStr).isSome
  | _ => true

/-- The handler registered for a request's route, run at time `now`. -/
def serve (eng : Engine) (join : String → String → String) (h : Handler) (now : Time) :
    Request → Response × Handler
  | .browse view parentIDStr => (BrowseHandler eng h view parentIDStr, h)
  | .upload req => UploadHandler join h req now
  | .folder req => CreateFolderHandler h req now
  | .rename req itemType idStr => RenameHandler eng h req itemType idStr now
  | .content idStr downloadParam => (DownloadHandler eng h idStr downloadParam, h)
  | .storage => (StorageQuotaHandler eng h, h)
  | .star itemType idStr => ToggleStarHandler eng h itemType idStr now
  | .trash itemType idStr restoreParam =>
    ToggleTrashHandler eng h itemType idStr restoreParam now

/-- The state after a sequence of timed requests, served one after the other. -/
def run (eng : Engine) (join : String → String → String) (h : Handler) :
    List (Time × Request) → Handler
  | [] => h
  | (now, req) :: rest => run eng join (serve eng join h now req).2 rest

/-- The responses to a sequence of timed requests, in order. -/
def responses (eng : Engine) (join : String → String → String) (h : Handler) :
    List (Time × Request) → List Response
  | [] => []
  | (now, req) :: rest =>
    (serve eng join h now req).1 :: responses eng join (serve eng join h now req).2 rest

/-- The state `main` starts from: freshly migrated, empty tables, storage as given. -/
def boot (st : LocalStorage) : Handler :=
  { DB := { files := [], folders := [] }, Storage := st }

/-- The primary-key constraint of one table: keys are pairwise different, and none is
zero (GORM reads a zero key as "not set"; SQLite hands out keys from 1). -/
def keysOK {α : Type} [gorm.Model α] (rows : List α) : Prop :=
  (rows.map gorm.Model.ID).Nodup ∧ 0 ∉ rows.map gorm.Model.ID

instance {α : Type} [gorm.Model α] (rows : List α) : Decidable (keysOK rows) :=
  inferInstanceAs (Decidable ((rows.map gorm.Model.ID).Nodup ∧ 0 ∉ rows.map gorm.Model.ID))

/-- A database state that satisfies the primary-key constraints of both tables. -/
def gorm.DB.Valid (db : gorm.DB) : Prop :=
  keysOK db.files ∧ keysOK db.folders

instance (db : gorm.DB) : Decidable db.Valid :=
  inferInstanceAs (Decidable (keysOK db.files ∧ keysOK db.folders))

/-- Rows that cannot be read back are rare: every File row can be read back, and a Folder
row that cannot is live and unstarred (no handler can load it, hence none can star or
trash it). Every state the handlers reach from the empty catalog is like that. -/
def gorm.DB.Readable (db : gorm.DB) : Prop :=
  (∀ f ∈ db.files, gorm.scans f = true) ∧
  (∀ d ∈ db.folders, gorm.scans d = false → d.DeletedAt = none ∧ d.IsStarred = false)

instance (db : gorm.DB) : Decidable db.Readable :=
  inferInstanceAs (Decidable ((∀ f ∈ db.files, gorm.scans f = true) ∧
    (∀ d ∈ db.folders, gorm.scans d = false → d.DeletedAt = none ∧ d.IsStarred = false)))

/-! ## Concrete states used to exercise the handlers -/

/-- Unix `filepath.Join` of a clean directory and a plain file name. -/
def unixJoin (dir name : String) : String := dir ++ "/" ++ name

/-- An engine for the concrete runs: a signed integer text compares as the number it
spells, the condition `1=1` holds on every row, any other condition text is refused. -/
def sampleEngine : Engine :=
  { textEq := fun arg v =>
      match gorm.Atoi arg with
      | some z => v == z
      | none => false
    fileWhere := fun _ s => if s = "1=1" then some (fun _ => true) else none
    folderWhere := fun _ s => if s = "1=1" then some (fun _ => true) else none }

/-- An empty `uploads` directory on a disk where every path can be created. -/
def uploads : LocalStorage :=
  { BaseDir := "uploads", disk := { files := [], unwritable := [] } }

/-- Upload of the 5-byte file A to the root. -/
def uploadA : UploadRequest :=
  { file := some { Filename := "a.txt", Open := some { data := [1, 2, 3, 4, 5], fails := false } },
    parent_id := "" }

/-- Upload of the 3-byte file B into folder 1. -/
def uploadB : UploadRequest :=
  { file := some { Filename := "b.txt", Open := some { data := [7, 8, 9], fails := false } },
    parent_id := "1" }

/-- The scenario of the specification: upload A, create folder F, upload B under F,
trash A, restore A. -/
def scenario : List (Time × Request) :=
  [(10, .upload uploadA), (11, .folder (some { Name := "F", ParentID := none })),
   (12, .upload uploadB), (13, .trash "file" "1" ""), (14, .trash "file" "1" "true")]

/-- The same scenario with the quota read at the start and after every upload, trash and
restore. -/
def quotaScenario : List (Time × Request) :=
  [(9, .storage), (10, .upload uploadA), (10, .storage),
   (11, .folder (some { Name := "F", ParentID := none })),
   (12, .upload uploadB), (12, .storage), (13, .trash "file" "1" ""), (13, .storage),
   (14, .trash "file" "1" "true"), (14, .storage)]

/-- The File row of A as uploaded. -/
def rowA : File :=
  { ID := 1, CreatedAt := 10, UpdatedAt := 10, DeletedAt := none, Name := "a.txt", Size := 5,
    IsStarred := false, ParentFolderID := none, StoragePath := "uploads/a.txt" }

/-- The File row of B as uploaded. -/
def rowB : File :=
  { ID := 2, CreatedAt := 12, UpdatedAt := 12, DeletedAt := none, Name := "b.txt", Size := 3,
    IsStarred := false, ParentFolderID := some 1, StoragePath := "uploads/b.txt" }

/-- The Folder row of F as created. -/
def rowF : Folder :=
  { ID := 1, CreatedAt := 11, UpdatedAt := 11, DeletedAt := none, Name := "F",
    IsStarred := false, ParentFolderID := none }

/-- The state after the first upload. -/
def afterA : Handler := run sampleEngine unixJoin (boot uploads) (scenario.take 1)

/-- The state with A and F at the root and B inside F. -/
def beforeTrash : Handler := run sampleEngine unixJoin (boot uploads) (scenario.take 3)

/-- The state after A was trashed. -/
def afterTrash : Handler := run sampleEngine unixJoin (boot uploads) (scenario.take 4)

/-- The state after the restore request for A. -/
def afterRestore : Handler := run sampleEngine unixJoin (boot uploads) scenario

/-- The state after A and then F were trashed. -/
def bothTrashed : Handler := run sampleEngine unixJoin afterTrash [(15, .trash "folder" "1" "")]

/-- A second upload named like A, with two other bytes, into folder 1. -/
def uploadA2 : UploadRequest :=
  { file := some { Filename := "a.txt", Open := some { data := [9, 9], fails := false } },
    parent_id := "1" }

/-- The File row of the second upload named like A. -/
def rowA2 : File :=
  { ID := 2, CreatedAt := 20, UpdatedAt := 20, DeletedAt := none, Name := "a.txt", Size := 2,
    IsStarred := false, ParentFolderID := some 1, StoragePath := "uploads/a.txt" }

/-- Requests served between the two uploads named like A: star A, create a folder. -/
def starThenFolder : List (Time × Request) :=
  [(15, .star "file" "1"), (16, .folder (some { Name := "F", ParentID := none }))]

/-- The state after the two uploads named like A and the requests between them. -/
def afterA2 : Handler :=
  (UploadHandler unixJoin (run sampleEngine unixJoin afterA starThenFolder) uploadA2 20).2

/-- The Folder row stored for a folder G created at time 17 with parent `2 ^ 64 - 1`. -/
def rowG : Folder :=
  { ID := 2, CreatedAt := 17, UpdatedAt := 17, DeletedAt := none, Name := "G",
    IsStarred := false, ParentFolderID := some (-1) }

/-- The state with A, F, B and the folder G whose parent is `2 ^ 64 - 1`. -/
def withG : Handler :=
  (CreateFolderHandler beforeTrash (some { Name := "G", ParentID := some (2 ^ 64 - 1) }) 17).2

/-! ## The query layer -/

namespace gorm

theorem Statement.mem_rows {α : Type} [Model α] (textEq : String → Int → Bool) (q : Statement)
    (table : List α) (r : α) (h : r ∈ q.rows textEq table) :
    r ∈ table ∧ q.selects textEq r = true := by
  unfold Statement.rows at h
  have hsel : r ∈ table.filter (q.selects textEq) := by
    have hord : r ∈ (if q.orderCreatedAtDesc then
        (table.filter (q.selects textEq)).insertionSort
          (fun a b => Model.CreatedAt b ≤ Model.CreatedAt a)
        else table.filter (q.selects textEq)) := by
      cases hl : q.limit with
      | none => simpa [hl] using h
      | some n =>
        rw [hl] at h
        exact List.mem_of_mem_take h
    by_cases ho : q.orderCreatedAtDesc = true
    · rw [if_pos ho] at hord
      exact (List.perm_insertionSort _ _).mem_iff.mp hord
    · rw [if_neg ho] at hord
      exact hord
  exact List.mem_filter.mp hsel

theorem Statement.rows_eq_filter {α : Type} [Model α] (textEq : String → Int → Bool)
    (q : Statement) (table : List α) (ho : q.orderCreatedAtDesc = false)
    (hl : q.limit = none) : q.rows textEq table = table.filter (q.selects textEq) := by
  simp [Statement.rows, ho, hl]

theorem Statement.Find_eq_some {α : Type} [Model α] (textEq : String → Int → Bool)
    (q : Statement) (table l : List α) (h : q.Find textEq table = some l) :
    l = q.rows textEq table := by
  unfold Statement.Find at h
  split_ifs at h
  exact (Option.some.inj h).symm

theorem Statement.Find_of_scans {α : Type} [Model α] (textEq : String → Int → Bool)
    (q : Statement) (table : List α) (hs : ∀ r ∈ q.rows textEq table, scans r = true) :
    q.Find textEq table = some (q.rows textEq table) := by
  unfold Statement.Find
  rw [if_pos (List.all_eq_true.mpr hs)]

theorem mem_of_firstByID {α : Type} [Model α] (l : List α) (x : α)
    (h : firstByID l = some x) : x ∈ l := by
  induction l generalizing x with
  | nil => simp [firstByID] at h
  | cons r rs ih =>
    unfold firstByID at h
    cases hrec : firstByID rs with
    | none =>
      rw [hrec] at h
      simp only [Option.some.injEq] at h
      subst h
      exact List.mem_cons_self _ _
    | some m =>
      rw [hrec] at h
      simp only at h
      split_ifs at h
      · simp only [Option.some.injEq] at h
        subst h
        exact List.mem_cons_self _ _
      · simp only [Option.some.injEq] at h
        subst h
        exact List.mem_cons_of_mem _ (ih m hrec)

theorem firstByID_eq_none {α : Type} [Model α] (l : List α) (h : firstByID l = none) :
    l = [] := by
  cases l with
  | nil => rfl
  | cons r rs =>
    unfold firstByID at h
    cases hrec : firstByID rs with
    | none => simp [hrec] at h
    | some m =>
      rw [hrec] at h
      simp only at h
      split_ifs at h

theorem firstByID_of_all_eq {α : Type} [Model α] (l : List α) (x : α) (hx : x ∈ l)
    (hall : ∀ y ∈ l, y = x) : firstByID l = some x := by
  cases hf : firstByID l with
  | none =>
    rw [firstByID_eq_none l hf] at hx
    cases hx
  | some y => rw [hall y (mem_of_firstByID l y hf)]

theorem keyCond_of_Atoi {α : Type} [Model α] (raw : String → Option (α → Bool))
    (idStr : String) (z : Int) (hz : Atoi idStr = some z) :
    keyCond raw idStr = some (fun r => (Model.ID r : Int) == z) := by
  simp only [keyCond, hz]

theorem Statement.First_eq_some {α : Type} [Model α] (textEq : String → Int → Bool)
    (raw : String → Option (α → Bool)) (q : Statement) (table : List α) (idStr : String)
    (r : α) (h : q.First textEq raw table idStr = some r) :
    r ∈ table ∧ q.selects textEq r = true ∧ scans r = true ∧
      ∀ z, Atoi idStr = some z → (Model.ID r : Int) = z := by
  unfold Statement.First at h
  cases hc : keyCond raw idStr with
  | none => simp [hc] at h
  | some c =>
    rw [hc] at h
    simp only at h
    cases hf : firstByID (table.filter (fun r => q.selects textEq r && c r)) with
    | none => simp [hf] at h
    | some x =>
      rw [hf] at h
      simp only at h
      split_ifs at h with hsc
      simp only [Option.some.injEq] at h
      subst h
      have hmem := List.mem_filter.mp (mem_of_firstByID _ _ hf)
      have hboth := hmem.2
      simp only [Bool.and_eq_true] at hboth
      refine ⟨hmem.1, hboth.1, hsc, ?_⟩
      intro z hz
      rw [keyCond_of_Atoi raw idStr z hz] at hc
      simp only [Option.some.injEq] at hc
      subst hc
      simpa using hboth.2

theorem Statement.First_eq_none_of_no_key {α : Type} [Model α] (textEq : String → Int → Bool)
    (raw : String → Option (α → Bool)) (q : Statement) (table : List α) (idStr : String)
    (z : Int) (hz : Atoi idStr = some z)
    (hno : ∀ r ∈ table, q.selects textEq r = true → (Model.ID r : Int) ≠ z) :
    q.First textEq raw table idStr = none := by
  cases hf : q.First textEq raw table idStr with
  | none => rfl
  | some r =>
    obtain ⟨hr, hs, -, hid⟩ := Statement.First_eq_some textEq raw q table idStr r hf
    exact absurd (hid z hz) (hno r hr hs)

theorem eq_of_ID_eq {α : Type} [Model α] {rows : List α}
    (hnd : (rows.map Model.ID).Nodup) {a b : α} (ha : a ∈ rows) (hb : b ∈ rows)
    (hab : Model.ID a = Model.ID b) : a = b :=
  List.inj_on_of_nodup_map hnd ha hb hab

theorem Statement.First_of_mem {α : Type} [Model α] (textEq : String → Int → Bool)
    (raw : String → Option (α → Bool)) (q : Statement) {table : List α}
    (hnd : (table.map Model.ID).Nodup) {r : α} (hr : r ∈ table)
    (hs : q.selects textEq r = true) (idStr : String)
    (hid : Atoi idStr = some (Model.ID r : Int)) :
    q.First textEq raw table idStr = if scans r then some r else none := by
  unfold Statement.First
  rw [keyCond_of_Atoi raw idStr _ hid]
  simp only
  have hfirst : firstByID (table.filter
      (fun x => q.selects textEq x && ((Model.ID x : Int) == (Model.ID r : Int)))) = some r := by
    apply firstByID_of_all_eq
    · exact List.mem_filter.mpr ⟨hr, by simp [hs]⟩
    · intro y hy
      have hmem := List.mem_filter.mp hy
      have hyid : Model.ID y = Model.ID r := by
        have := hmem.2
        simp only [Bool.and_eq_true, beq_iff_eq] at this
        exact_mod_cast this.2
      exact eq_of_ID_eq hnd hmem.1 hr hyid
  rw [hfirst]

theorem Statement.Exec_map_ID {α : Type} [Model α] (textEq : String → Int → Bool)
    (q : Statement) (rows : List α) (id : Nat) (set : α → α)
    (hset : ∀ r ∈ rows, Model.ID r = id → Model.ID (set r) = Model.ID r) :
    (q.Exec textEq rows id set).map Model.ID = rows.map Model.ID := by
  unfold Statement.Exec
  rw [List.map_map]
  apply List.map_congr_left
  intro r hr
  simp only [Function.comp_apply]
  split_ifs with hc
  · have hid : Model.ID r = id := by
      simp at hc
      exact hc.2
    exact hset r hr hid
  · rfl

theorem Statement.Exec_eq_map {α : Type} [Model α] (textEq : String → Int → Bool)
    (q : Statement) {rows : List α} (hnd : (rows.map Model.ID).Nodup) {x : α}
    (hx : x ∈ rows) (hs : q.selects textEq x = true) (set : α → α) :
    q.Exec textEq rows (Model.ID x) set
      = rows.map (fun r => if Model.ID r = Model.ID x then set r else r) := by
  unfold Statement.Exec
  apply List.map_congr_left
  intro r hr
  by_cases hid : Model.ID r = Model.ID x
  · have hrx : r = x := eq_of_ID_eq hnd hr hx hid
    subst hrx
    simp [hs]
  · simp [hid]

theorem Statement.Exec_const_eq_map {α : Type} [Model α] (textEq : String → Int → Bool)
    (q : Statement) {rows : List α} (hnd : (rows.map Model.ID).Nodup) {x : α}
    (hx : x ∈ rows) (hs : q.selects textEq x = true) (g : α → α) :
    q.Exec textEq rows (Model.ID x) (fun _ => g x)
      = rows.map (fun r => if Model.ID r = Model.ID x then g r else r) := by
  unfold Statement.Exec
  apply List.map_congr_left
  intro r hr
  by_cases hid : Model.ID r = Model.ID x
  · have hrx : r = x := eq_of_ID_eq hnd hr hx hid
    subst hrx
    simp [hs]
  · simp [hid]

theorem Statement.Exec_eq_self {α : Type} [Model α] (textEq : String → Int → Bool)
    (q : Statement) (rows : List α) (id : Nat) (set : α → α)
    (hno : ∀ r ∈ rows, Model.ID r = id → q.selects textEq r = false) :
    q.Exec textEq rows id set = rows := by
  unfold Statement.Exec
  conv_rhs => rw [← List.map_id rows]
  apply List.map_congr_left
  intro r hr
  by_cases hid : Model.ID r = id
  · simp [hno r hr hid]
  · simp [hid]

theorem le_foldr_max (l : List Nat) (n : Nat) (hn : n ∈ l) : n ≤ l.foldr max 0 := by
  induction l with
  | nil => cases hn
  | cons a as ih =>
    simp only [List.foldr_cons]
    rcases List.mem_cons.mp hn with rfl | hmem
    · exact Nat.le_max_left _ _
    · exact Nat.le_trans (ih hmem) (Nat.le_max_right _ _)

theorem lt_nextID {α : Type} [Model α] (rows : List α) (r : α) (hr : r ∈ rows) :
    Model.ID r < nextID rows := by
  unfold nextID
  exact Nat.lt_succ_of_le (le_foldr_max _ _ (List.mem_map_of_mem _ hr))

theorem int64_of_lt (v : Int) (hv : v < 2 ^ 63) : int64 v = v := by
  unfold int64
  rw [if_pos hv]

theorem Statement.mem_Exec {α : Type} [Model α] (textEq : String → Int → Bool)
    (q : Statement) (rows : List α) (id : Nat) (set : α → α) (x : α)
    (hx : x ∈ q.Exec textEq rows id set) :
    x ∈ rows ∨ ∃ r ∈ rows, q.selects textEq r = true ∧ Model.ID r = id ∧ x = set r := by
  unfold Statement.Exec at hx
  obtain ⟨r, hr, hrx⟩ := List.mem_map.mp hx
  split_ifs at hrx with hc
  · right
    simp only [Bool.and_eq_true, beq_iff_eq] at hc
    exact ⟨r, hr, hc.1, hc.2, hrx.symm⟩
  · left
    rw [← hrx]
    exact hr

end gorm

theorem scoped_selects {α : Type} [gorm.Model α] (textEq : String → Int → Bool) (r : α) :
    gorm.Statement.selects textEq {} r = (gorm.Model.DeletedAt r).isNone := by
  simp [gorm.Statement.selects]

theorem unscoped_selects {α : Type} [gorm.Model α] (textEq : String → Int → Bool) (r : α) :
    gorm.Statement.selects textEq (gorm.Statement.Unscoped {}) r = true := by
  simp [gorm.Statement.selects, gorm.Statement.Unscoped]

theorem keysOK_append {α : Type} [gorm.Model α] (rows : List α) (r : α) (hk : keysOK rows)
    (hid : gorm.Model.ID r = gorm.nextID rows) : keysOK (rows ++ [r]) := by
  unfold keysOK at *
  rw [List.map_append, List.map_singleton]
  refine ⟨?_, ?_⟩
  · rw [List.nodup_append]
    refine ⟨hk.1, List.nodup_singleton _, ?_⟩
    intro a ha hb
    rw [List.mem_singleton] at hb
    obtain ⟨x, hx, rfl⟩ := List.mem_map.mp ha
    have := gorm.lt_nextID rows x hx
    omega
  · intro h0
    rcases List.mem_append.mp h0 with h1 | h1
    · exact hk.2 h1
    · rw [List.mem_singleton] at h1
      unfold gorm.nextID at hid
      omega

theorem keysOK_Exec {α : Type} [gorm.Model α] (textEq : String → Int → Bool)
    (q : gorm.Statement) (rows : List α) (id : Nat) (set : α → α)
    (hset : ∀ r ∈ rows, gorm.Model.ID r = id → gorm.Model.ID (set r) = gorm.Model.ID r)
    (hk : keysOK rows) : keysOK (q.Exec textEq rows id set) := by
  unfold keysOK at *
  rw [gorm.Statement.Exec_map_ID textEq q rows id set hset]
  exact hk

/-! ## The primary-key constraints are kept by every handler -/

theorem UploadHandler_Valid (join : String → String → String) (h : Handler)
    (req : UploadRequest) (now : Time) (hv : h.DB.Valid) :
    (UploadHandler join h req now).2.DB.Valid := by
  unfold UploadHandler
  split
  · exact hv
  · split
    · exact hv
    · split
      · exact hv
      · exact ⟨keysOK_append _ _ hv.1 rfl, hv.2⟩

theorem CreateFolderHandler_Valid (h : Handler) (req : Option FolderRequest) (now : Time)
    (hv : h.DB.Valid) : (CreateFolderHandler h req now).2.DB.Valid := by
  unfold CreateFolderHandler
  split
  · exact hv
  · split_ifs
    · exact hv
    · exact ⟨hv.1, keysOK_append _ _ hv.2 rfl⟩

theorem RenameHandler_Valid (eng : Engine) (h : Handler) (req : Option RenameRequest)
    (itemType idStr : String) (now : Time) (hv : h.DB.Valid) :
    (RenameHandler eng h req itemType idStr now).2.DB.Valid := by
  simp only [RenameHandler]
  split
  · exact hv
  · split_ifs
    · split
      · exact hv
      · exact ⟨keysOK_Exec _ _ _ _ _ (fun r _ hr => hr.symm) hv.1, hv.2⟩
    · split
      · exact hv
      · exact ⟨hv.1, keysOK_Exec _ _ _ _ _ (fun r _ hr => hr.symm) hv.2⟩
    · exact hv

theorem ToggleStarHandler_Valid (eng : Engine) (h : Handler) (itemType idStr : String)
    (now : Time) (hv : h.DB.Valid) : (ToggleStarHandler eng h itemType idStr now).2.DB.Valid := by
  simp only [ToggleStarHandler]
  split_ifs
  · split
    · exact hv
    · exact ⟨keysOK_Exec _ _ _ _ _ (fun r _ hr => hr.symm) hv.1, hv.2⟩
  · split
    · exact hv
    · exact ⟨hv.1, keysOK_Exec _ _ _ _ _ (fun r _ hr => hr.symm) hv.2⟩

theorem ToggleTrashHandler_Valid (eng : Engine) (h : Handler)
    (itemType idStr restoreParam : String) (now : Time) (hv : h.DB.Valid) :
    (ToggleTrashHandler eng h itemType idStr restoreParam now).2.DB.Valid := by
  simp only [ToggleTrashHandler]
  split_ifs <;> split <;>
    first
    | exact hv
    | exact ⟨keysOK_Exec _ _ _ _ _ (fun _ _ _ => rfl) hv.1, hv.2⟩
    | exact ⟨hv.1, keysOK_Exec _ _ _ _ _ (fun _ _ _ => rfl) hv.2⟩

theorem serve_Valid (eng : Engine) (join : String → String → String) (h : Handler)
    (now : Time) (req : Request) (hv : h.DB.Valid) : (serve eng join h now req).2.DB.Valid := by
  cases req with
  | browse view parentIDStr => exact hv
  | upload req => exact UploadHandler_Valid join h req now hv
  | folder req => exact CreateFolderHandler_Valid h req now hv
  | rename req itemType idStr => exact RenameHandler_Valid eng h req itemType idStr now hv
  | content idStr downloadParam => exact hv
  | storage => exact hv
  | star itemType idStr => exact ToggleStarHandler_Valid eng h itemType idStr now hv
  | trash itemType idStr restoreParam =>
    exact ToggleTrashHandler_Valid eng h itemType idStr restoreParam now hv

theorem run_Valid (eng : Engine) (join : String → String → String)
    (trace : List (Time × Request)) (h : Handler) (hv : h.DB.Valid) :
    (run eng join h trace).DB.Valid := by
  induction trace generalizing h with
  | nil => exact hv
  | cons a rest ih => exact ih _ (serve_Valid eng join h a.1 a.2 hv)

theorem boot_Valid (st : LocalStorage) : (boot st).DB.Valid := by
  simp [boot, gorm.DB.Valid, keysOK]

/-! ## Rows that cannot be read back stay live and unstarred -/

theorem ParseUint_lt (s : String) (bitSize n : Nat) (h : ParseUint s bitSize = some n) :
    n < 2 ^ bitSize := by
  unfold ParseUint at h
  cases hd : gorm.decimal s with
  | none => simp [hd] at h
  | some m =>
    rw [hd] at h
    simp only at h
    split_ifs at h with hlt
    simp only [Option.some.injEq] at h
    subst h
    exact hlt

theorem row_of_small_parent (f : File)
    (hp : ∀ v, f.ParentFolderID = some v → 0 ≤ v ∧ v < 2 ^ 63) :
    f.row = f ∧ gorm.scans f.row = true := by
  obtain ⟨id, c, u, d, n, s, st, par, path⟩ := f
  cases par with
  | none => exact ⟨rfl, rfl⟩
  | some v =>
    obtain ⟨h0, h1⟩ := hp v rfl
    have hrow : (File.mk id c u d n s st (some v) path).row
        = File.mk id c u d n s st (some v) path := by
      simp only [File.row, Option.map_some', gorm.int64_of_lt v h1]
    refine ⟨hrow, ?_⟩
    rw [hrow]
    simp [gorm.scans, gorm.Model.ParentFolderID, h0]

theorem upload_parent_small (parentIDStr : String) (v : Int)
    (h : (if parentIDStr ≠ "" ∧ parentIDStr ≠ "null" then ParseUint parentIDStr 32
      else none).map Int.ofNat = some v) : 0 ≤ v ∧ v < 2 ^ 63 := by
  split_ifs at h with hc
  · cases hp : ParseUint parentIDStr 32 with
    | none => simp [hp] at h
    | some n =>
      rw [hp] at h
      simp only [Option.map_some', Option.some.injEq] at h
      have hlt := ParseUint_lt parentIDStr 32 n hp
      subst h
      refine ⟨Int.ofNat_nonneg n, ?_⟩
      have : (n : Int) < 2 ^ 32 := by exact_mod_cast hlt
      have h2 : (2 : Int) ^ 32 < 2 ^ 63 := by norm_num
      exact lt_trans this h2
  · simp at h

theorem Exec_all {α : Type} [gorm.Model α] (textEq : String → Int → Bool)
    (q : gorm.Statement) (rows : List α) (id : Nat) (set : α → α) (P : α → Prop)
    (hall : ∀ r ∈ rows, P r)
    (hset : ∀ r ∈ rows, q.selects textEq r = true → gorm.Model.ID r = id → P (set r)) :
    ∀ x ∈ q.Exec textEq rows id set, P x := by
  intro x hx
  rcases gorm.Statement.mem_Exec textEq q rows id set x hx with hold | ⟨r, hr, hs, hid, rfl⟩
  · exact hall x hold
  · exact hset r hr hs hid

theorem UploadHandler_Readable (join : String → String → String) (h : Handler)
    (req : UploadRequest) (now : Time) (hs : h.DB.Readable) :
    (UploadHandler join h req now).2.DB.Readable := by
  unfold UploadHandler
  split
  · exact hs
  · split
    · exact hs
    · split
      · exact hs
      · refine ⟨?_, hs.2⟩
        intro f hf
        rcases List.mem_append.mp hf with hold | hnew
        · exact hs.1 f hold
        · rw [List.mem_singleton] at hnew
          subst hnew
          apply And.right (row_of_small_parent _ ?_)
          intro v hv
          exact upload_parent_small req.parent_id v hv

theorem CreateFolderHandler_Readable (h : Handler) (req : Option FolderRequest) (now : Time)
    (hs : h.DB.Readable) : (CreateFolderHandler h req now).2.DB.Readable := by
  unfold CreateFolderHandler
  split
  · exact hs
  · split_ifs
    · exact hs
    · refine ⟨hs.1, ?_⟩
      intro d hd _
      rcases List.mem_append.mp hd with hold | hnew
      · rename_i hsc
        exact hs.2 d hold hsc
      · rw [List.mem_singleton] at hnew
        subst hnew
        exact ⟨rfl, rfl⟩

theorem scans_congr {α : Type} [gorm.Model α] (a b : α)
    (h : gorm.Model.ParentFolderID a = gorm.Model.ParentFolderID b) :
    gorm.scans a = gorm.scans b := by
  unfold gorm.scans
  rw [h]

theorem files_Exec_Readable (textEq : String → Int → Bool) (q : gorm.Statement)
    (rows : List File) (id : Nat) (set : File → File)
    (hall : ∀ f ∈ rows, gorm.scans f = true)
    (hset : ∀ r ∈ rows, q.selects textEq r = true → r.ID = id → gorm.scans (set r) = true) :
    ∀ f ∈ q.Exec textEq rows id set, gorm.scans f = true :=
  Exec_all textEq q rows id set (fun f => gorm.scans f = true) hall hset

theorem folders_Exec_Readable (textEq : String → Int → Bool) (q : gorm.Statement)
    (rows : List Folder) (id : Nat) (set : Folder → Folder)
    (hall : ∀ d ∈ rows, gorm.scans d = false → d.DeletedAt = none ∧ d.IsStarred = false)
    (hset : ∀ r ∈ rows, q.selects textEq r = true → r.ID = id → gorm.scans (set r) = true) :
    ∀ d ∈ q.Exec textEq rows id set,
      gorm.scans d = false → d.DeletedAt = none ∧ d.IsStarred = false := by
  apply Exec_all textEq q rows id set
    (fun d => gorm.scans d = false → d.DeletedAt = none ∧ d.IsStarred = false) hall
  intro r hr hsel hid hfalse
  rw [hset r hr hsel hid] at hfalse
  cases hfalse

theorem RenameHandler_Readable (eng : Engine) (h : Handler) (req : Option RenameRequest)
    (itemType idStr : String) (now : Time) (hs : h.DB.Readable) :
    (RenameHandler eng h req itemType idStr now).2.DB.Readable := by
  simp only [RenameHandler]
  split
  · exact hs
  · split_ifs
    · split
      · exact hs
      · rename_i x hfirst
        have hx := (gorm.Statement.First_eq_some _ _ _ _ _ _ hfirst).2.2.1
        exact ⟨files_Exec_Readable _ _ _ _ _ hs.1 (fun _ _ _ _ => hx), hs.2⟩
    · split
      · exact hs
      · rename_i x hfirst
        have hx := (gorm.Statement.First_eq_some _ _ _ _ _ _ hfirst).2.2.1
        exact ⟨hs.1, folders_Exec_Readable _ _ _ _ _ hs.2 (fun _ _ _ _ => hx)⟩
    · exact hs

theorem ToggleStarHandler_Readable (eng : Engine) (h : Handler) (itemType idStr : String)
    (now : Time) (hs : h.DB.Readable) :
    (ToggleStarHandler eng h itemType idStr now).2.DB.Readable := by
  simp only [ToggleStarHandler]
  split_ifs
  · split
    · exact hs
    · rename_i x hfirst
      have hx := (gorm.Statement.First_eq_some _ _ _ _ _ _ hfirst).2.2.1
      exact ⟨files_Exec_Readable _ _ _ _ _ hs.1 (fun _ _ _ _ => hx), hs.2⟩
  · split
    · exact hs
    · rename_i x hfirst
      have hx := (gorm.Statement.First_eq_some _ _ _ _ _ _ hfirst).2.2.1
      exact ⟨hs.1, folders_Exec_Readable _ _ _ _ _ hs.2 (fun _ _ _ _ => hx)⟩

theorem ToggleTrashHandler_Readable (eng : Engine) (h : Handler) (hv : h.DB.Valid)
    (itemType idStr restoreParam : String) (now : Time) (hs : h.DB.Readable) :
    (ToggleTrashHandler eng h itemType idStr restoreParam now).2.DB.Readable := by
  simp only [ToggleTrashHandler]
  split_ifs <;> split <;>
    first
    | exact hs
    | (rename_i x hfirst
       obtain ⟨hx, -, hsc, -⟩ := gorm.Statement.First_eq_some _ _ _ _ _ _ hfirst
       refine ⟨files_Exec_Readable _ _ _ _ _ hs.1 ?_, hs.2⟩
       intro r hr _ hid
       have hrx : r = x := gorm.eq_of_ID_eq hv.1.1 hr hx hid
       subst hrx
       exact hsc)
    | (rename_i x hfirst
       obtain ⟨hx, -, hsc, -⟩ := gorm.Statement.First_eq_some _ _ _ _ _ _ hfirst
       refine ⟨hs.1, folders_Exec_Readable _ _ _ _ _ hs.2 ?_⟩
       intro r hr _ hid
       have hrx : r = x := gorm.eq_of_ID_eq hv.2.1 hr hx hid
       subst hrx
       exact hsc)

theorem serve_Readable (eng : Engine) (join : String → String → String) (h : Handler)
    (hv : h.DB.Valid) (now : Time) (req : Request) (hs : h.DB.Readable) :
    (serve eng join h now req).2.DB.Readable := by
  cases req with
  | browse view parentIDStr => exact hs
  | upload req => exact UploadHandler_Readable join h req now hs
  | folder req => exact CreateFolderHandler_Readable h req now hs
  | rename req itemType idStr => exact RenameHandler_Readable eng h req itemType idStr now hs
  | content idStr downloadParam => exact hs
  | storage => exact hs
  | star itemType idStr => exact ToggleStarHandler_Readable eng h itemType idStr now hs
  | trash itemType idStr restoreParam =>
    exact ToggleTrashHandler_Readable eng h hv itemType idStr restoreParam now hs

theorem run_Readable (eng : Engine) (join : String → String → String)
    (trace : List (Time × Request)) (h : Handler) (hv : h.DB.Valid) (hs : h.DB.Readable) :
    (run eng join h trace).DB.Readable := by
  induction trace generalizing h with
  | nil => exact hs
  | cons a rest ih =>
    exact ih _ (serve_Valid eng join h a.1 a.2 hv) (serve_Readable eng join h hv a.1 a.2 hs)

theorem boot_Readable (st : LocalStorage) : (boot st).DB.Readable := by
  simp [boot, gorm.DB.Readable]

/-! ## Browse -/

theorem BrowseHandler_of_scans (eng : Engine) (h : Handler) (view parentIDStr : String)
    (hf : ∀ r ∈ (browseQueries view parentIDStr).1.rows eng.textEq h.DB.files,
      gorm.scans r = true)
    (hd : ∀ r ∈ (browseQueries view parentIDStr).2.rows eng.textEq h.DB.folders,
      gorm.scans r = true) :
    BrowseHandler eng h view parentIDStr =
      ⟨200, .listing ((browseQueries view parentIDStr).1.rows eng.textEq h.DB.files)
        ((browseQueries view parentIDStr).2.rows eng.textEq h.DB.folders)⟩ := by
  simp only [BrowseHandler, gorm.Statement.Find_of_scans _ _ _ hf,
    gorm.Statement.Find_of_scans _ _ _ hd]

theorem browse_files_mem (eng : Engine) (h : Handler) (view parentIDStr : String) (f : File)
    (hf : f ∈ (BrowseHandler eng h view parentIDStr).files) :
    f ∈ (browseQueries view parentIDStr).1.rows eng.textEq h.DB.files := by
  simp only [BrowseHandler] at hf
  cases h1 : (browseQueries view parentIDStr).1.Find eng.textEq h.DB.files with
  | none =>
    rw [h1] at hf
    simp [Response.files] at hf
  | some l =>
    rw [h1] at hf
    cases h2 : (browseQueries view parentIDStr).2.Find eng.textEq h.DB.folders with
    | none =>
      rw [h2] at hf
      simp [Response.files] at hf
    | some l2 =>
      rw [h2] at hf
      rw [← gorm.Statement.Find_eq_some _ _ _ _ h1]
      exact hf

theorem browse_folders_mem (eng : Engine) (h : Handler) (view parentIDStr : String)
    (d : Folder) (hd : d ∈ (BrowseHandler eng h view parentIDStr).folders) :
    d ∈ (browseQueries view parentIDStr).2.rows eng.textEq h.DB.folders := by
  simp only [BrowseHandler] at hd
  cases h1 : (browseQueries view parentIDStr).1.Find eng.textEq h.DB.files with
  | none =>
    rw [h1] at hd
    simp [Response.folders] at hd
  | some l =>
    rw [h1] at hd
    cases h2 : (browseQueries view parentIDStr).2.Find eng.textEq h.DB.folders with
    | none =>
      rw [h2] at hd
      simp [Response.folders] at hd
    | some l2 =>
      rw [h2] at hd
      rw [← gorm.Statement.Find_eq_some _ _ _ _ h2]
      exact hd

theorem browseQueries_scoped (view parentIDStr : String) (hv : view ≠ "trash") :
    (browseQueries view parentIDStr).1.unscoped = false ∧
      (browseQueries view parentIDStr).2.unscoped = false := by
  unfold browseQueries
  split_ifs <;> simp [gorm.Statement.Where, gorm.Statement.Order, gorm.Statement.Limit]

theorem trash_rows {α : Type} [gorm.Model α] (textEq : String → Int → Bool)
    (table : List α) :
    gorm.Statement.rows textEq ((gorm.Statement.Unscoped {}).Where .deletedAtNotNull) table
      = table.filter (fun r => (gorm.Model.DeletedAt r).isSome) := by
  simp only [gorm.Statement.rows, gorm.Statement.Where, gorm.Statement.Unscoped,
    Bool.false_eq_true, if_false, List.nil_append]
  congr 1
  funext r
  simp [gorm.Statement.selects, gorm.Cond.eval]

theorem starred_rows {α : Type} [gorm.Model α] (textEq : String → Int → Bool)
    (table : List α) :
    gorm.Statement.rows textEq (gorm.Statement.Where {} (.isStarred true)) table
      = table.filter (fun r => (gorm.Model.DeletedAt r).isNone && gorm.Model.IsStarred r) := by
  simp only [gorm.Statement.rows, gorm.Statement.Where, Bool.false_eq_true, if_false,
    List.nil_append]
  congr 1
  funext r
  simp [gorm.Statement.selects, gorm.Cond.eval]

theorem browseQueries_trash (parentIDStr : String) :
    browseQueries "trash" parentIDStr =
      ((gorm.Statement.Unscoped {}).Where .deletedAtNotNull,
        (gorm.Statement.Unscoped {}).Where .deletedAtNotNull) := by
  simp only [browseQueries, String.reduceEq, if_false, if_true]

theorem browseQueries_starred (parentIDStr : String) :
    browseQueries "starred" parentIDStr =
      (gorm.Statement.Where {} (.isStarred true), gorm.Statement.Where {} (.isStarred true)) := by
  simp only [browseQueries, String.reduceEq, if_false, if_true]

theorem isSome_of_ne_none {β : Type} (o : Option β) (h : o ≠ none) : o.isSome = true := by
  cases o with
  | none => exact absurd rfl h
  | some _ => rfl

theorem browse_trash (eng : Engine) (h : Handler)
    (hf : ∀ f ∈ h.DB.files, f.DeletedAt ≠ none → gorm.scans f = true)
    (hd : ∀ d ∈ h.DB.folders, d.DeletedAt ≠ none → gorm.scans d = true)
    (parentIDStr : String) :
    BrowseHandler eng h "trash" parentIDStr =
      ⟨200, .listing (h.DB.files.filter (fun f => f.DeletedAt.isSome))
        (h.DB.folders.filter (fun d => d.DeletedAt.isSome))⟩ := by
  have key := BrowseHandler_of_scans eng h "trash" parentIDStr
  rw [browseQueries_trash] at key
  simp only [trash_rows] at key
  apply key
  · intro r hr
    have hmem := List.mem_filter.mp hr
    apply hf r hmem.1
    intro hnone
    have hdel := hmem.2
    simp [gorm.Model.DeletedAt, hnone] at hdel
  · intro r hr
    have hmem := List.mem_filter.mp hr
    apply hd r hmem.1
    intro hnone
    have hdel := hmem.2
    simp [gorm.Model.DeletedAt, hnone] at hdel

theorem Readable_trashed (db : gorm.DB) (hs : db.Readable) :
    (∀ f ∈ db.files, f.DeletedAt ≠ none → gorm.scans f = true) ∧
    (∀ d ∈ db.folders, d.DeletedAt ≠ none → gorm.scans d = true) := by
  refine ⟨fun f hf _ => hs.1 f hf, ?_⟩
  intro d hd hdel
  cases hsc : gorm.scans d with
  | true => rfl
  | false => exact absurd (hs.2 d hd hsc).1 hdel

theorem browse_starred (eng : Engine) (h : Handler) (hs : h.DB.Readable)
    (parentIDStr : String) :
    BrowseHandler eng h "starred" parentIDStr =
      ⟨200, .listing (h.DB.files.filter (fun f => f.DeletedAt.isNone && f.IsStarred))
        (h.DB.folders.filter (fun d => d.DeletedAt.isNone && d.IsStarred))⟩ := by
  have key := BrowseHandler_of_scans eng h "starred" parentIDStr
  rw [browseQueries_starred] at key
  simp only [starred_rows] at key
  apply key
  · intro r hr
    exact hs.1 r (List.mem_filter.mp hr).1
  · intro r hr
    have hmem := List.mem_filter.mp hr
    cases hsc : gorm.scans r with
    | true => rfl
    | false =>
      have hun := (hs.2 r hmem.1 hsc).2
      have hst := hmem.2
      simp [gorm.Model.IsStarred, hun] at hst

theorem browse_other_files_live (eng : Engine) (h : Handler) (view parentIDStr : String)
    (hv : view ≠ "trash") (f : File)
    (hf : f ∈ (BrowseHandler eng h view parentIDStr).files) :
    f ∈ h.DB.files ∧ f.DeletedAt = none := by
  have hm := gorm.Statement.mem_rows _ _ _ _ (browse_files_mem eng h view parentIDStr f hf)
  refine ⟨hm.1, ?_⟩
  have hs := (browseQueries_scoped view parentIDStr hv).1
  have := hm.2
  simp [gorm.Statement.selects, hs, gorm.Model.DeletedAt] at this
  exact this.1

theorem browse_other_folders_live (eng : Engine) (h : Handler) (view parentIDStr : String)
    (hv : view ≠ "trash") (d : Folder)
    (hd : d ∈ (BrowseHandler eng h view parentIDStr).folders) :
    d ∈ h.DB.folders ∧ d.DeletedAt = none := by
  have hm := gorm.Statement.mem_rows _ _ _ _ (browse_folders_mem eng h view parentIDStr d hd)
  refine ⟨hm.1, ?_⟩
  have hs := (browseQueries_scoped view parentIDStr hv).2
  have := hm.2
  simp [gorm.Statement.selects, hs, gorm.Model.DeletedAt] at this
  exact this.1

/-- C3: in a state where every trashed row can be read back (every state the handlers
reach is such a state, `run_Readable` and `Readable_trashed`), a File or Folder row whose
deletion timestamp is set is listed by the trash view and by no other view (default browse
with any `parent_id`, recent, starred, or an unrecognised token); and the trash view lists
nothing but rows of the catalog whose deletion timestamp is set. -/
theorem trashed_rows_only_in_trash_view (eng : Engine) (h : Handler)
    (hreadf : ∀ f ∈ h.DB.files, f.DeletedAt ≠ none → gorm.scans f = true)
    (hreadd : ∀ d ∈ h.DB.folders, d.DeletedAt ≠ none → gorm.scans d = true)
    (view parentIDStr : String) :
    (∀ f ∈ h.DB.files, f.DeletedAt ≠ none →
        f ∈ (BrowseHandler eng h "trash" parentIDStr).files ∧
        (view ≠ "trash" → f ∉ (BrowseHandler eng h view parentIDStr).files)) ∧
    (∀ d ∈ h.DB.folders, d.DeletedAt ≠ none →
        d ∈ (BrowseHandler eng h "trash" parentIDStr).folders ∧
        (view ≠ "trash" → d ∉ (BrowseHandler eng h view parentIDStr).folders)) ∧
    (∀ f ∈ (BrowseHandler eng h "trash" parentIDStr).files,
        f ∈ h.DB.files ∧ f.DeletedAt ≠ none) ∧
    (∀ d ∈ (BrowseHandler eng h "trash" parentIDStr).folders,
        d ∈ h.DB.folders ∧ d.DeletedAt ≠ none) := by
  have htrash := browse_trash eng h hreadf hreadd parentIDStr
  refine ⟨?_, ?_, ?_, ?_⟩
  · intro f hf hdel
    refine ⟨?_, ?_⟩
    · rw [htrash]
      exact List.mem_filter.mpr ⟨hf, isSome_of_ne_none _ hdel⟩
    · intro hv hmem
      exact hdel (browse_other_files_live eng h view parentIDStr hv f hmem).2
  · intro d hd hdel
    refine ⟨?_, ?_⟩
    · rw [htrash]
      exact List.mem_filter.mpr ⟨hd, isSome_of_ne_none _ hdel⟩
    · intro hv hmem
      exact hdel (browse_other_folders_live eng h view parentIDStr hv d hmem).2
  · intro f hf
    rw [htrash] at hf
    have := List.mem_filter.mp hf
    refine ⟨this.1, ?_⟩
    intro hnone
    simp [hnone] at this
  · intro d hd
    rw [htrash] at hd
    have := List.mem_filter.mp hd
    refine ⟨this.1, ?_⟩
    intro hnone
    simp [hnone] at this

theorem RenameHandler_file (eng : Engine) (h : Handler) (name idStr : String) (now : Time) :
    RenameHandler eng h (some ⟨name⟩) "file" idStr now =
      match gorm.Statement.First eng.textEq (eng.fileWhere h.DB) {} h.DB.files idStr with
      | none => (⟨404, .error "File not found"⟩, h)
      | some file =>
        (⟨200, .file { file with Name := name, UpdatedAt := now }⟩,
          h.withFiles (gorm.Statement.Exec eng.textEq {} h.DB.files file.ID
            (fun _ => { file with Name := name, UpdatedAt := now }))) := by
  simp only [RenameHandler, if_true]

theorem RenameHandler_folder (eng : Engine) (h : Handler) (name idStr : String)
    (now : Time) :
    RenameHandler eng h (some ⟨name⟩) "folder" idStr now =
      match gorm.Statement.First eng.textEq (eng.folderWhere h.DB) {} h.DB.folders idStr with
      | none => (⟨404, .error "Folder not found"⟩, h)
      | some folder =>
        (⟨200, .folder { folder with Name := name, UpdatedAt := now }⟩,
          h.withFolders (gorm.Statement.Exec eng.textEq {} h.DB.folders folder.ID
            (fun _ => { folder with Name := name, UpdatedAt := now }))) := by
  simp only [RenameHandler, String.reduceEq, if_true, if_false]

theorem live_selects {α : Type} [gorm.Model α] (textEq : String → Int → Bool) (r : α)
    (hlive : gorm.Model.DeletedAt r = none) : gorm.Statement.selects textEq {} r = true := by
  rw [scoped_selects, hlive]
  rfl

theorem First_none_of_trashed {α : Type} [gorm.Model α] (textEq : String → Int → Bool)
    (raw : String → Option (α → Bool)) {table : List α}
    (hnd : (table.map gorm.Model.ID).Nodup) {r : α} (hr : r ∈ table)
    (hdel : gorm.Model.DeletedAt r ≠ none) (idStr : String)
    (hid : gorm.Atoi idStr = some (gorm.Model.ID r : Int)) :
    gorm.Statement.First textEq raw {} table idStr = none := by
  apply gorm.Statement.First_eq_none_of_no_key textEq raw {} table idStr _ hid
  intro x hx hsel hxid
  have hxr : x = r := gorm.eq_of_ID_eq hnd hx hr (by exact_mod_cast hxid)
  subst hxr
  rw [scoped_selects] at hsel
  cases hd : gorm.Model.DeletedAt x with
  | none => exact hdel hd
  | some t => simp [hd] at hsel

theorem First_none_of_unreadable {α : Type} [gorm.Model α] (textEq : String → Int → Bool)
    (raw : String → Option (α → Bool)) {table : List α}
    (hnd : (table.map gorm.Model.ID).Nodup) {r : α} (hr : r ∈ table)
    (hsc : gorm.scans r = false) (idStr : String)
    (hid : gorm.Atoi idStr = some (gorm.Model.ID r : Int)) :
    gorm.Statement.First textEq raw {} table idStr = none := by
  cases hd : gorm.Model.DeletedAt r with
  | none =>
    rw [gorm.Statement.First_of_mem textEq raw {} hnd hr (live_selects textEq r hd) idStr hid,
      hsc]
    rfl
  | some t =>
    exact First_none_of_trashed textEq raw hnd hr (by rw [hd]; exact Option.some_ne_none t)
      idStr hid

/-- C9, as amended: `RenameHandler` renames only rows it can load, and a trashed row is not
among them. Called with the row's kind and an integer numeral that spells the row's id: for
a File or Folder row whose deletion timestamp is null and which can be read back it
answers 200 with the renamed record and rewrites that row, and no other, with the new name
and modification time; for a row whose deletion timestamp is set it answers 404 and
changes nothing, exactly as for an id that no row carries; and so it does for a row that
cannot be read back (a stored parent reference that wrapped). -/
theorem rename_live_rows_only (eng : Engine) (h : Handler) (hv : h.DB.Valid)
    (name : String) (now : Time) :
    (∀ f ∈ h.DB.files, ∀ idStr, gorm.Atoi idStr = some (f.ID : Int) →
      (f.DeletedAt = none → gorm.scans f = true →
        RenameHandler eng h (some ⟨name⟩) "file" idStr now =
          (⟨200, .file { f with Name := name, UpdatedAt := now }⟩,
            h.withFiles (h.DB.files.map (fun r =>
              if r.ID = f.ID then { f with Name := name, UpdatedAt := now } else r)))) ∧
      (f.DeletedAt ≠ none →
        RenameHandler eng h (some ⟨name⟩) "file" idStr now
          = (⟨404, .error "File not found"⟩, h)) ∧
      (gorm.scans f = false →
        RenameHandler eng h (some ⟨name⟩) "file" idStr now
          = (⟨404, .error "File not found"⟩, h))) ∧
    (∀ d ∈ h.DB.folders, ∀ idStr, gorm.Atoi idStr = some (d.ID : Int) →
      (d.DeletedAt = none → gorm.scans d = true →
        RenameHandler eng h (some ⟨name⟩) "folder" idStr now =
          (⟨200, .folder { d with Name := name, UpdatedAt := now }⟩,
            h.withFolders (h.DB.folders.map (fun r =>
              if r.ID = d.ID then { d with Name := name, UpdatedAt := now } else r)))) ∧
      (d.DeletedAt ≠ none →
        RenameHandler eng h (some ⟨name⟩) "folder" idStr now
          = (⟨404, .error "Folder not found"⟩, h)) ∧
      (gorm.scans d = false →
        RenameHandler eng h (some ⟨name⟩) "folder" idStr now
          = (⟨404, .error "Folder not found"⟩, h))) := by
  refine ⟨?_, ?_⟩
  · intro f hf idStr hid
    refine ⟨?_, ?_, ?_⟩
    · intro hlive hsc
      have hs := live_selects eng.textEq f hlive
      have hfirst := gorm.Statement.First_of_mem eng.textEq (eng.fileWhere h.DB) {} hv.1.1 hf
        hs idStr hid
      rw [hsc] at hfirst
      have hexec := gorm.Statement.Exec_eq_map eng.textEq {} hv.1.1 hf hs
        (fun _ => { f with Name := name, UpdatedAt := now })
      rw [RenameHandler_file]
      simp only [gorm.Model.ID, if_true] at hfirst hexec
      rw [hfirst]
      simp only
      rw [hexec]
    · intro hdel
      rw [RenameHandler_file,
        First_none_of_trashed eng.textEq (eng.fileWhere h.DB) hv.1.1 hf hdel idStr hid]
    · intro hsc
      rw [RenameHandler_file,
        First_none_of_unreadable eng.textEq (eng.fileWhere h.DB) hv.1.1 hf hsc idStr hid]
  · intro d hd idStr hid
    refine ⟨?_, ?_, ?_⟩
    · intro hlive hsc
      have hs := live_selects eng.textEq d hlive
      have hfirst := gorm.Statement.First_of_mem eng.textEq (eng.folderWhere h.DB) {} hv.2.1
        hd hs idStr hid
      rw [hsc] at hfirst
      have hexec := gorm.Statement.Exec_eq_map eng.textEq {} hv.2.1 hd hs
        (fun _ => { d with Name := name, UpdatedAt := now })
      rw [RenameHandler_folder]
      simp only [gorm.Model.ID, if_true] at hfirst hexec
      rw [hfirst]
      simp only
      rw [hexec]
    · intro hdel
      rw [RenameHandler_folder,
        First_none_of_trashed eng.textEq (eng.folderWhere h.DB) hv.2.1 hd hdel idStr hid]
    · intro hsc
      rw [RenameHandler_folder,
        First_none_of_unreadable eng.textEq (eng.folderWhere h.DB) hv.2.1 hd hsc idStr hid]

/-! ## Stars -/

theorem ToggleStarHandler_file (eng : Engine) (h : Handler) (idStr : String) (now : Time) :
    ToggleStarHandler eng h "file" idStr now =
      match gorm.Statement.First eng.textEq (eng.fileWhere h.DB) {} h.DB.files idStr with
      | none => (⟨404, .error "Not found"⟩, h)
      | some file =>
        (⟨200, .file { file with IsStarred := !file.IsStarred, UpdatedAt := now }⟩,
          h.withFiles (gorm.Statement.Exec eng.textEq {} h.DB.files file.ID
            (fun _ => { file with IsStarred := !file.IsStarred, UpdatedAt := now }))) := by
  simp only [ToggleStarHandler, if_true]

theorem ToggleStarHandler_folder (eng : Engine) (h : Handler) (itemType : String)
    (ht : itemType ≠ "file") (idStr : String) (now : Time) :
    ToggleStarHandler eng h itemType idStr now =
      match gorm.Statement.First eng.textEq (eng.folderWhere h.DB) {} h.DB.folders idStr with
      | none => (⟨404, .error "Not found"⟩, h)
      | some folder =>
        (⟨200, .folder { folder with IsStarred := !folder.IsStarred, UpdatedAt := now }⟩,
          h.withFolders (gorm.Statement.Exec eng.textEq {} h.DB.folders folder.ID
            (fun _ => { folder with IsStarred := !folder.IsStarred, UpdatedAt := now }))) := by
  simp only [ToggleStarHandler, ht, if_false]

theorem star_file_flips (eng : Engine) (h : Handler) (hv : h.DB.Valid) (idStr : String)
    (now : Time) (hok : (ToggleStarHandler eng h "file" idStr now).1.status = 200) :
    ∃ f ∈ h.DB.files, f.DeletedAt = none ∧
      (∀ z, gorm.Atoi idStr = some z → (f.ID : Int) = z) ∧
      (ToggleStarHandler eng h "file" idStr now).2 = h.withFiles (h.DB.files.map (fun r =>
        if r.ID = f.ID then { r with IsStarred := !r.IsStarred, UpdatedAt := now }
        else r)) := by
  rw [ToggleStarHandler_file] at hok ⊢
  cases hfirst : gorm.Statement.First eng.textEq (eng.fileWhere h.DB) {} h.DB.files idStr with
  | none =>
    rw [hfirst] at hok
    simp at hok
  | some x =>
    obtain ⟨hx, hs, -, hid⟩ := gorm.Statement.First_eq_some _ _ _ _ _ _ hfirst
    have hlive : x.DeletedAt = none := by
      rw [scoped_selects] at hs
      simpa [gorm.Model.DeletedAt] using hs
    have hexec := gorm.Statement.Exec_const_eq_map eng.textEq {} hv.1.1 hx hs
      (fun r : File => { r with IsStarred := !r.IsStarred, UpdatedAt := now })
    simp only [gorm.Model.ID] at hexec hid
    refine ⟨x, hx, hlive, hid, ?_⟩
    simp only
    rw [hexec]

theorem star_folder_flips (eng : Engine) (h : Handler) (hv : h.DB.Valid)
    (itemType : String) (ht : itemType ≠ "file") (idStr : String) (now : Time)
    (hok : (ToggleStarHandler eng h itemType idStr now).1.status = 200) :
    ∃ d ∈ h.DB.folders, d.DeletedAt = none ∧
      (∀ z, gorm.Atoi idStr = some z → (d.ID : Int) = z) ∧
      (ToggleStarHandler eng h itemType idStr now).2 =
        h.withFolders (h.DB.folders.map (fun r =>
          if r.ID = d.ID then { r with IsStarred := !r.IsStarred, UpdatedAt := now }
          else r)) := by
  rw [ToggleStarHandler_folder eng h itemType ht] at hok ⊢
  cases hfirst :
      gorm.Statement.First eng.textEq (eng.folderWhere h.DB) {} h.DB.folders idStr with
  | none =>
    rw [hfirst] at hok
    simp at hok
  | some x =>
    obtain ⟨hx, hs, -, hid⟩ := gorm.Statement.First_eq_some _ _ _ _ _ _ hfirst
    have hlive : x.DeletedAt = none := by
      rw [scoped_selects] at hs
      simpa [gorm.Model.DeletedAt] using hs
    have hexec := gorm.Statement.Exec_const_eq_map eng.textEq {} hv.2.1 hx hs
      (fun r : Folder => { r with IsStarred := !r.IsStarred, UpdatedAt := now })
    simp only [gorm.Model.ID] at hexec hid
    refine ⟨x, hx, hlive, hid, ?_⟩
    simp only
    rw [hexec]

/-- C7: in every state reached from the empty catalog by any sequence of requests (uploads,
folder creations, star and trash toggles, and the other routes, with integer numerals as
ids), the starred view answers 200 and returns, whatever `parent_id` is supplied, exactly
the File rows and the Folder rows whose star flag is set and whose deletion timestamp is
null; and a `ToggleStarHandler` call that answers 200 found a live row with that id, gives
back the state in which that row has its star flag flipped (and its modification time
stamped) and every other row, of either table, and the storage are as before. -/
theorem starred_view_and_star_toggle (eng : Engine) (join : String → String → String)
    (st : LocalStorage) (trace : List (Time × Request))
    (hplain : ∀ a ∈ trace, a.2.plain = true) (h : Handler)
    (hreach : h = run eng join (boot st) trace)
    (parentIDStr itemType idStr : String) (z : Int) (hz : gorm.Atoi idStr = some z)
    (now : Time) :
    (BrowseHandler eng h "starred" parentIDStr).status = 200 ∧
    (BrowseHandler eng h "starred" parentIDStr).files
        = h.DB.files.filter (fun f => f.DeletedAt.isNone && f.IsStarred) ∧
    (BrowseHandler eng h "starred" parentIDStr).folders
        = h.DB.folders.filter (fun d => d.DeletedAt.isNone && d.IsStarred) ∧
    ((ToggleStarHandler eng h itemType idStr now).1.status = 200 →
      (itemType = "file" →
        ∃ f ∈ h.DB.files, (f.ID : Int) = z ∧ f.DeletedAt = none ∧
          (ToggleStarHandler eng h itemType idStr now).2 =
            h.withFiles (h.DB.files.map (fun r =>
              if r.ID = f.ID then { r with IsStarred := !r.IsStarred, UpdatedAt := now }
              else r))) ∧
      (itemType ≠ "file" →
        ∃ d ∈ h.DB.folders, (d.ID : Int) = z ∧ d.DeletedAt = none ∧
          (ToggleStarHandler eng h itemType idStr now).2 =
            h.withFolders (h.DB.folders.map (fun r =>
              if r.ID = d.ID then { r with IsStarred := !r.IsStarred, UpdatedAt := now }
              else r)))) := by
  -- the invariants hold along every sequence; `hplain` only delimits the statement
  have _ := hplain
  have hv : h.DB.Valid := by
    rw [hreach]
    exact run_Valid eng join trace _ (boot_Valid st)
  have hs : h.DB.Readable := by
    rw [hreach]
    exact run_Readable eng join trace _ (boot_Valid st) (boot_Readable st)
  have hstar := browse_starred eng h hs parentIDStr
  refine ⟨by rw [hstar], by rw [hstar]; rfl, by rw [hstar]; rfl, ?_⟩
  intro hok
  refine ⟨?_, ?_⟩
  · intro ht
    subst ht
    obtain ⟨f, hf, hlive, hid, hstate⟩ := star_file_flips eng h hv idStr now hok
    exact ⟨f, hf, hid z hz, hlive, hstate⟩
  · intro ht
    obtain ⟨d, hd, hlive, hid, hstate⟩ := star_folder_flips eng h hv itemType ht idStr now hok
    exact ⟨d, hd, hid z hz, hlive, hstate⟩

/-! ## Folder creation -/

theorem Disk.Open_put (d : Disk) (path : String) (bytes : List Byte) :
    (d.put path bytes).Open path = some bytes := by
  simp [Disk.Open, Disk.put]

theorem UploadHandler_ok (join : String → String → String) (h : Handler)
    (req : UploadRequest) (now : Time) (rec : File) (h1 : Handler)
    (hup : UploadHandler join h req now = (⟨200, .file rec⟩, h1)) :
    ∃ hdr data, req.file = some hdr ∧ hdr.Open = some ⟨data, false⟩ ∧
      rec.ID = gorm.nextID h.DB.files ∧ rec.DeletedAt = none ∧ rec.Name = hdr.Filename ∧
      rec.Size = data.length ∧ rec.StoragePath = join h.Storage.BaseDir hdr.Filename ∧
      h1.DB.files = h.DB.files ++ [rec] ∧ h1.DB.folders = h.DB.folders ∧
      h1.Storage.BaseDir = h.Storage.BaseDir ∧
      h1.Storage.disk = h.Storage.disk.put (join h.Storage.BaseDir hdr.Filename) data ∧
      gorm.scans rec = true := by
  unfold UploadHandler at hup
  cases hfile : req.file with
  | none =>
    rw [hfile] at hup
    simp at hup
  | some hdr =>
    rw [hfile] at hup
    cases hopen : hdr.Open with
    | none =>
      simp [hopen] at hup
    | some src =>
      obtain ⟨data, fails⟩ := src
      simp only [hopen, LocalStorage.SaveFile] at hup
      by_cases hw : join h.Storage.BaseDir hdr.Filename ∈ h.Storage.disk.unwritable
      · simp [hw] at hup
      · cases fails with
        | true => simp [hw] at hup
        | false =>
          simp only [hw, if_false, Bool.false_eq_true] at hup
          have h2 := (Prod.mk.inj hup).2
          have hr := (Prod.mk.inj hup).1
          simp only [Response.mk.injEq, Body.file.injEq, true_and] at hr
          have hsmall := row_of_small_parent rec (by
            intro v hv
            rw [← hr] at hv
            exact upload_parent_small req.parent_id v hv)
          rw [hr, hsmall.1] at h2
          rw [hsmall.1] at hsmall
          subst h2
          subst hr
          exact ⟨hdr, data, rfl, hopen, rfl, rfl, rfl, rfl, rfl, rfl, rfl, rfl, rfl,
            hsmall.2⟩

theorem DownloadHandler_live (eng : Engine) (h : Handler) (hv : h.DB.Valid) (f : File)
    (hf : f ∈ h.DB.files) (hlive : f.DeletedAt = none) (hsc : gorm.scans f = true)
    (bytes : List Byte) (hblob : h.Storage.GetFile f.StoragePath = some bytes)
    (idStr : String) (hid : gorm.Atoi idStr = some (f.ID : Int)) (downloadParam : String) :
    DownloadHandler eng h idStr downloadParam =
      ⟨200, .stream (if downloadParam = "true" then
        "attachment; filename=\"" ++ f.Name ++ "\"" else "inline") bytes⟩ := by
  have hfirst := gorm.Statement.First_of_mem eng.textEq (eng.fileWhere h.DB) {} hv.1.1 hf
    (live_selects eng.textEq f hlive) idStr hid
  rw [hsc] at hfirst
  simp only [if_true] at hfirst
  simp only [DownloadHandler, hfirst, hblob]

/-- C2: whenever `UploadHandler` answers 200 with a File record (in a state that satisfies
the primary-key constraints), the request carried a stream that delivered some bytes `data`
and ended without error, the record's `Size` is the number of those bytes,
`LocalStorage.GetFile` on the record's storage key yields exactly `data`, and
`DownloadHandler` for the record's id (any integer numeral that spells it) answers 200
streaming exactly `data`. -/
theorem upload_then_download_roundtrip (eng : Engine) (join : String → String → String)
    (h : Handler) (hv : h.DB.Valid) (req : UploadRequest) (now : Time) (rec : File)
    (h1 : Handler) (hup : UploadHandler join h req now = (⟨200, .file rec⟩, h1))
    (idStr : String) (hid : gorm.Atoi idStr = some (rec.ID : Int))
    (downloadParam : String) :
    ∃ hdr data, req.file = some hdr ∧ hdr.Open = some ⟨data, false⟩ ∧
      rec.Size = data.length ∧
      h1.Storage.GetFile rec.StoragePath = some data ∧
      DownloadHandler eng h1 idStr downloadParam =
        ⟨200, .stream (if downloadParam = "true" then
          "attachment; filename=\"" ++ rec.Name ++ "\"" else "inline") data⟩ := by
  have hv1 : h1.DB.Valid := by
    have := UploadHandler_Valid join h req now hv
    rw [hup] at this
    exact this
  obtain ⟨hdr, data, hfile, hopen, -, hlive, -, hsize, hpath, hfiles, -, -, hdisk, hsc⟩ :=
    UploadHandler_ok join h req now rec h1 hup
  have hblob : h1.Storage.GetFile rec.StoragePath = some data := by
    rw [LocalStorage.GetFile, hdisk, hpath]
    exact Disk.Open_put _ _ _
  have hmem : rec ∈ h1.DB.files := by
    rw [hfiles]
    simp
  exact ⟨hdr, data, hfile, hopen, hsize, hblob,
    DownloadHandler_live eng h1 hv1 rec hmem hlive hsc data hblob idStr hid downloadParam⟩

/-! ### Rows are never removed, and id, size, parent and storage key of a File row never
change -/

theorem files_map_keeps (rows : List File) (g : File → File)
    (hg : ∀ r ∈ rows, (g r).ID = r.ID ∧ (g r).Size = r.Size ∧
      (g r).StoragePath = r.StoragePath ∧ (g r).ParentFolderID = r.ParentFolderID)
    (id size : Nat) (path : String) (par : Option Int)
    (hrow : ∃ r ∈ rows, r.ID = id ∧ r.Size = size ∧ r.StoragePath = path ∧
      r.ParentFolderID = par) :
    ∃ r ∈ rows.map g, r.ID = id ∧ r.Size = size ∧ r.StoragePath = path ∧
      r.ParentFolderID = par := by
  obtain ⟨r, hr, h1, h2, h3, h4⟩ := hrow
  obtain ⟨e1, e2, e3, e4⟩ := hg r hr
  exact ⟨g r, List.mem_map_of_mem g hr, e1.trans h1, e2.trans h2, e3.trans h3, e4.trans h4⟩

theorem files_Exec_keeps (textEq : String → Int → Bool) (q : gorm.Statement)
    (rows : List File) (key : Nat) (g : File → File)
    (hg : ∀ r, (g r).ID = r.ID ∧ (g r).Size = r.Size ∧ (g r).StoragePath = r.StoragePath ∧
      (g r).ParentFolderID = r.ParentFolderID)
    (id size : Nat) (path : String) (par : Option Int)
    (hrow : ∃ r ∈ rows, r.ID = id ∧ r.Size = size ∧ r.StoragePath = path ∧
      r.ParentFolderID = par) :
    ∃ r ∈ q.Exec textEq rows key g, r.ID = id ∧ r.Size = size ∧ r.StoragePath = path ∧
      r.ParentFolderID = par := by
  unfold gorm.Statement.Exec
  apply files_map_keeps rows _ _ id size path par hrow
  intro r _
  split_ifs
  · exact hg r
  · exact ⟨rfl, rfl, rfl, rfl⟩

theorem files_Save_keeps (textEq : String → Int → Bool) (rows : List File)
    (hnd : (rows.map gorm.Model.ID).Nodup) (x : File)
    (hx : x ∈ rows) (hs : gorm.Statement.selects textEq {} x = true) (g : File → File)
    (hg : ∀ r, (g r).ID = r.ID ∧ (g r).Size = r.Size ∧ (g r).StoragePath = r.StoragePath ∧
      (g r).ParentFolderID = r.ParentFolderID)
    (id size : Nat) (path : String) (par : Option Int)
    (hrow : ∃ r ∈ rows, r.ID = id ∧ r.Size = size ∧ r.StoragePath = path ∧
      r.ParentFolderID = par) :
    ∃ r ∈ gorm.Statement.Exec textEq {} rows x.ID (fun _ => g x),
      r.ID = id ∧ r.Size = size ∧ r.StoragePath = path ∧ r.ParentFolderID = par := by
  have hexec := gorm.Statement.Exec_const_eq_map textEq {} hnd hx hs g
  simp only [gorm.Model.ID] at hexec
  rw [hexec]
  apply files_map_keeps rows _ _ id size path par hrow
  intro r _
  split_ifs
  · exact hg r
  · exact ⟨rfl, rfl, rfl, rfl⟩

theorem SaveFile_BaseDir (join : String → String → String) (s : LocalStorage)
    (reader : Reader) (filename : String) :
    (s.SaveFile join reader filename).2.BaseDir = s.BaseDir := by
  simp only [LocalStorage.SaveFile]
  split_ifs <;> rfl

theorem UploadHandler_keeps (join : String → String → String) (h : Handler)
    (req : UploadRequest) (now : Time) (id size : Nat) (path : String) (par : Option Int)
    (hrow : ∃ r ∈ h.DB.files, r.ID = id ∧ r.Size = size ∧ r.StoragePath = path ∧
      r.ParentFolderID = par) :
    (∃ r ∈ (UploadHandler join h req now).2.DB.files,
      r.ID = id ∧ r.Size = size ∧ r.StoragePath = path ∧ r.ParentFolderID = par) ∧
    (UploadHandler join h req now).2.Storage.BaseDir = h.Storage.BaseDir := by
  obtain ⟨r, hr, hfields⟩ := hrow
  unfold UploadHandler
  split
  · exact ⟨⟨r, hr, hfields⟩, rfl⟩
  · split
    · exact ⟨⟨r, hr, hfields⟩, rfl⟩
    · rename_i hdr _ _ src _
      have hb := SaveFile_BaseDir join h.Storage src hdr.Filename
      split
      · rename_i st heq
        rw [heq] at hb
        exact ⟨⟨r, hr, hfields⟩, hb⟩
      · rename_i p n st heq
        rw [heq] at hb
        exact ⟨⟨r, List.mem_append_left _ hr, hfields⟩, hb⟩

theorem RenameHandler_keeps (eng : Engine) (h : Handler) (hv : h.DB.Valid)
    (req : Option RenameRequest) (itemType idStr : String) (now : Time) (id size : Nat)
    (path : String) (par : Option Int)
    (hrow : ∃ r ∈ h.DB.files, r.ID = id ∧ r.Size = size ∧ r.StoragePath = path ∧
      r.ParentFolderID = par) :
    (∃ r ∈ (RenameHandler eng h req itemType idStr now).2.DB.files,
      r.ID = id ∧ r.Size = size ∧ r.StoragePath = path ∧ r.ParentFolderID = par) ∧
    (RenameHandler eng h req itemType idStr now).2.Storage.BaseDir = h.Storage.BaseDir := by
  cases req with
  | none => exact ⟨hrow, rfl⟩
  | some req =>
    obtain ⟨name⟩ := req
    by_cases ht : itemType = "file"
    · subst ht
      rw [RenameHandler_file]
      cases hfirst :
          gorm.Statement.First eng.textEq (eng.fileWhere h.DB) {} h.DB.files idStr with
      | none => exact ⟨hrow, rfl⟩
      | some x =>
        obtain ⟨hx, hs, -, -⟩ := gorm.Statement.First_eq_some _ _ _ _ _ _ hfirst
        exact ⟨files_Save_keeps eng.textEq h.DB.files hv.1.1 x hx hs
          (fun r => { r with Name := name, UpdatedAt := now })
          (fun _ => ⟨rfl, rfl, rfl, rfl⟩) id size path par hrow, rfl⟩
    · by_cases hd : itemType = "folder"
      · subst hd
        rw [RenameHandler_folder]
        cases gorm.Statement.First eng.textEq (eng.folderWhere h.DB) {} h.DB.folders idStr with
        | none => exact ⟨hrow, rfl⟩
        | some x => exact ⟨hrow, rfl⟩
      · have hbad : RenameHandler eng h (some ⟨name⟩) itemType idStr now
            = (⟨400, .error "Invalid type"⟩, h) := by
          simp only [RenameHandler, ht, hd, if_false]
        rw [hbad]
        exact ⟨hrow, rfl⟩

theorem ToggleStarHandler_keeps (eng : Engine) (h : Handler) (hv : h.DB.Valid)
    (itemType idStr : String) (now : Time) (id size : Nat) (path : String)
    (par : Option Int)
    (hrow : ∃ r ∈ h.DB.files, r.ID = id ∧ r.Size = size ∧ r.StoragePath = path ∧
      r.ParentFolderID = par) :
    (∃ r ∈ (ToggleStarHandler eng h itemType idStr now).2.DB.files,
      r.ID = id ∧ r.Size = size ∧ r.StoragePath = path ∧ r.ParentFolderID = par) ∧
    (ToggleStarHandler eng h itemType idStr now).2.Storage.BaseDir = h.Storage.BaseDir := by
  by_cases ht : itemType = "file"
  · subst ht
    rw [ToggleStarHandler_file]
    cases hfirst :
        gorm.Statement.First eng.textEq (eng.fileWhere h.DB) {} h.DB.files idStr with
    | none => exact ⟨hrow, rfl⟩
    | some x =>
      obtain ⟨hx, hs, -, -⟩ := gorm.Statement.First_eq_some _ _ _ _ _ _ hfirst
      exact ⟨files_Save_keeps eng.textEq h.DB.files hv.1.1 x hx hs
        (fun r => { r with IsStarred := !r.IsStarred, UpdatedAt := now })
        (fun _ => ⟨rfl, rfl, rfl, rfl⟩) id size path par hrow, rfl⟩
  · rw [ToggleStarHandler_folder eng h itemType ht]
    cases gorm.Statement.First eng.textEq (eng.folderWhere h.DB) {} h.DB.folders idStr with
    | none => exact ⟨hrow, rfl⟩
    | some x => exact ⟨hrow, rfl⟩

theorem ToggleTrashHandler_keeps (eng : Engine) (h : Handler)
    (itemType idStr restoreParam : String) (now : Time) (id size : Nat) (path : String)
    (par : Option Int)
    (hrow : ∃ r ∈ h.DB.files, r.ID = id ∧ r.Size = size ∧ r.StoragePath = path ∧
      r.ParentFolderID = par) :
    (∃ r ∈ (ToggleTrashHandler eng h itemType idStr restoreParam now).2.DB.files,
      r.ID = id ∧ r.Size = size ∧ r.StoragePath = path ∧ r.ParentFolderID = par) ∧
    (ToggleTrashHandler eng h itemType idStr restoreParam now).2.Storage.BaseDir
      = h.Storage.BaseDir := by
  simp only [ToggleTrashHandler]
  split_ifs <;> split <;>
    first
    | exact ⟨hrow, rfl⟩
    | exact ⟨files_Exec_keeps _ _ _ _ (fun r => { r with DeletedAt := none, UpdatedAt := now })
        (fun _ => ⟨rfl, rfl, rfl, rfl⟩) id size path par hrow, rfl⟩
    | exact ⟨files_Exec_keeps _ _ _ _ (fun r => { r with DeletedAt := some now })
        (fun _ => ⟨rfl, rfl, rfl, rfl⟩) id size path par hrow, rfl⟩

theorem CreateFolderHandler_keeps (h : Handler) (req : Option FolderRequest) (now : Time) :
    (CreateFolderHandler h req now).2.DB.files = h.DB.files ∧
    (CreateFolderHandler h req now).2.Storage = h.Storage := by
  unfold CreateFolderHandler
  split
  · exact ⟨rfl, rfl⟩
  · split_ifs <;> exact ⟨rfl, rfl⟩

theorem serve_keeps (eng : Engine) (join : String → String → String) (h : Handler)
    (hv : h.DB.Valid) (now : Time) (req : Request) (id size : Nat) (path : String)
    (par : Option Int)
    (hrow : ∃ r ∈ h.DB.files, r.ID = id ∧ r.Size = size ∧ r.StoragePath = path ∧
      r.ParentFolderID = par) :
    (∃ r ∈ (serve eng join h now req).2.DB.files,
      r.ID = id ∧ r.Size = size ∧ r.StoragePath = path ∧ r.ParentFolderID = par) ∧
    (serve eng join h now req).2.Storage.BaseDir = h.Storage.BaseDir := by
  cases req with
  | browse view parentIDStr => exact ⟨hrow, rfl⟩
  | upload req => exact UploadHandler_keeps join h req now id size path par hrow
  | folder req =>
    have hk := CreateFolderHandler_keeps h req now
    simp only [serve]
    rw [hk.1, hk.2]
    exact ⟨hrow, rfl⟩
  | rename req itemType idStr =>
    exact RenameHandler_keeps eng h hv req itemType idStr now id size path par hrow
  | content idStr downloadParam => exact ⟨hrow, rfl⟩
  | storage => exact ⟨hrow, rfl⟩
  | star itemType idStr =>
    exact ToggleStarHandler_keeps eng h hv itemType idStr now id size path par hrow
  | trash itemType idStr restoreParam =>
    exact ToggleTrashHandler_keeps eng h itemType idStr restoreParam now id size path par hrow

theorem run_keeps (eng : Engine) (join : String → String → String)
    (trace : List (Time × Request)) (h : Handler) (hv : h.DB.Valid) (id size : Nat)
    (path : String) (par : Option Int)
    (hrow : ∃ r ∈ h.DB.files, r.ID = id ∧ r.Size = size ∧ r.StoragePath = path ∧
      r.ParentFolderID = par) :
    (∃ r ∈ (run eng join h trace).DB.files,
      r.ID = id ∧ r.Size = size ∧ r.StoragePath = path ∧ r.ParentFolderID = par) ∧
    (run eng join h trace).Storage.BaseDir = h.Storage.BaseDir := by
  induction trace generalizing h with
  | nil => exact ⟨hrow, rfl⟩
  | cons a rest ih =>
    have hstep := serve_keeps eng join h hv a.1 a.2 id size path par hrow
    have hrest := ih _ (serve_Valid eng join h a.1 a.2 hv) hstep.1
    exact ⟨hrest.1, hrest.2.trans hstep.2⟩

/-- C10: take two successful uploads that carry the same file name, with any contents and
any `parent_id`, and any requests (with integer numerals as ids) served between them.
`LocalStorage.SaveFile` hands out
the same storage key for both; the two records have different ids and each records the
size of its own stream; after the second upload the catalog holds the second record and
still holds a row with the first record's id, size and storage key, and the blob under
that key is the second stream: if that first row is still live, a download of the first
File (by any integer numeral that spells its id) returns the second upload's bytes. With
nothing served in between, the first record itself is that row and the download answers
200 with the second upload's bytes. -/
theorem same_name_uploads_share_blob (eng : Engine) (join : String → String → String)
    (h : Handler) (hv : h.DB.Valid) (name : String) (src1 src2 : Reader)
    (parent1 parent2 : String) (t1 t2 : Time) (rec1 rec2 : File) (h1 h2 : Handler)
    (between : List (Time × Request)) (hplain : ∀ a ∈ between, a.2.plain = true)
    (hup1 : UploadHandler join h ⟨some ⟨name, some src1⟩, parent1⟩ t1
      = (⟨200, .file rec1⟩, h1))
    (hup2 : UploadHandler join (run eng join h1 between)
      ⟨some ⟨name, some src2⟩, parent2⟩ t2 = (⟨200, .file rec2⟩, h2))
    (idStr : String) (hid : gorm.Atoi idStr = some (rec1.ID : Int))
    (downloadParam : String) :
    rec1.StoragePath = rec2.StoragePath ∧ rec1.ID ≠ rec2.ID ∧
    rec1.Size = src1.data.length ∧ rec2.Size = src2.data.length ∧
    rec2 ∈ h2.DB.files ∧
    h2.Storage.GetFile rec1.StoragePath = some src2.data ∧
    (∃ r ∈ h2.DB.files, r.ID = rec1.ID ∧ r.Size = rec1.Size ∧
      r.StoragePath = rec1.StoragePath ∧
      (r.DeletedAt = none →
        DownloadHandler eng h2 idStr downloadParam =
          ⟨200, .stream (if downloadParam = "true" then
            "attachment; filename=\"" ++ r.Name ++ "\"" else "inline") src2.data⟩)) ∧
    (between = [] →
      rec1 ∈ h2.DB.files ∧
      DownloadHandler eng h2 idStr downloadParam =
        ⟨200, .stream (if downloadParam = "true" then
          "attachment; filename=\"" ++ rec1.Name ++ "\"" else "inline") src2.data⟩) := by
  -- the invariants hold along every sequence; `hplain` only delimits the statement
  have _ := hplain
  have hv1 : h1.DB.Valid := by
    have := UploadHandler_Valid join h ⟨some ⟨name, some src1⟩, parent1⟩ t1 hv
    rw [hup1] at this
    exact this
  have hvm : (run eng join h1 between).DB.Valid := run_Valid eng join between h1 hv1
  have hv2 : h2.DB.Valid := by
    have := UploadHandler_Valid join (run eng join h1 between)
      ⟨some ⟨name, some src2⟩, parent2⟩ t2 hvm
    rw [hup2] at this
    exact this
  obtain ⟨hdr1, data1, hfile1, hopen1, -, hlive1, -, hsize1, hpath1, hfiles1, -, hbase1, -,
      hsc1⟩ := UploadHandler_ok join h _ t1 rec1 h1 hup1
  obtain ⟨hdr2, data2, hfile2, hopen2, hid2, -, -, hsize2, hpath2, hfiles2, -, -, hdisk2, -⟩ :=
    UploadHandler_ok join (run eng join h1 between) _ t2 rec2 h2 hup2
  simp only [Option.some.injEq] at hfile1 hfile2
  subst hfile1
  subst hfile2
  simp only [Option.some.injEq] at hopen1 hopen2
  subst hopen1
  subst hopen2
  have hmem1 : rec1 ∈ h1.DB.files := by
    rw [hfiles1]
    simp
  obtain ⟨⟨r, hr, hrid, hrsize, hrpath, hrpar⟩, hbasem⟩ :=
    run_keeps eng join between h1 hv1 rec1.ID rec1.Size rec1.StoragePath rec1.ParentFolderID
      ⟨rec1, hmem1, rfl, rfl, rfl, rfl⟩
  have hrsc : gorm.scans r = true := by
    rw [scans_congr r rec1 hrpar]
    exact hsc1
  have hkey : rec1.StoragePath = rec2.StoragePath := by
    rw [hpath1, hpath2, hbasem, hbase1]
  have hmem2 : rec2 ∈ h2.DB.files := by
    rw [hfiles2]
    simp
  have hr2 : r ∈ h2.DB.files := by
    rw [hfiles2]
    exact List.mem_append_left _ hr
  have hne : rec1.ID ≠ rec2.ID := by
    have := gorm.lt_nextID (run eng join h1 between).DB.files r hr
    simp only [gorm.Model.ID] at this
    omega
  have hblob : h2.Storage.GetFile rec1.StoragePath = some data2 := by
    rw [hkey, LocalStorage.GetFile, hdisk2, hpath2]
    exact Disk.Open_put _ _ _
  refine ⟨hkey, hne, hsize1, hsize2, hmem2, hblob, ⟨r, hr2, hrid, hrsize, hrpath, ?_⟩, ?_⟩
  · intro hrlive
    exact DownloadHandler_live eng h2 hv2 r hr2 hrlive hrsc data2 (by rw [hrpath]; exact hblob)
      idStr (by rw [hrid]; exact hid) downloadParam
  · intro hnil
    subst hnil
    have hmem12 : rec1 ∈ h2.DB.files := by
      rw [hfiles2]
      exact List.mem_append_left _ hmem1
    exact ⟨hmem12, DownloadHandler_live eng h2 hv2 rec1 hmem12 hlive1 hsc1 data2 hblob idStr hid
      downloadParam⟩

/-! ## Quota and the trash cycle -/

theorem quota_eq_sum_live (eng : Engine) (h : Handler)
    (hfit : ((h.DB.files.filter (fun f => f.DeletedAt.isNone)).map File.Size).sum < 2 ^ 63) :
    (StorageQuotaHandler eng h).used
      = some ((h.DB.files.filter (fun f => f.DeletedAt.isNone)).map File.Size).sum := by
  have hrows : gorm.Statement.rows eng.textEq {} h.DB.files
      = h.DB.files.filter (fun f => f.DeletedAt.isNone) := by
    simp only [gorm.Statement.rows, Bool.false_eq_true, if_false]
    congr 1
    funext f
    simp [gorm.Statement.selects, gorm.Model.DeletedAt]
  simp only [StorageQuotaHandler, Response.used, hrows, if_pos hfit]

theorem scoped_Exec_keeps_DeletedAt {α : Type} [gorm.Model α]
    (textEq : String → Int → Bool) (rows : List α) (id : Nat)
    (set : α → α) (hset : ∀ r, gorm.Model.DeletedAt (set r) = none) :
    (gorm.Statement.Exec textEq {} rows id set).map gorm.Model.DeletedAt
      = rows.map gorm.Model.DeletedAt := by
  unfold gorm.Statement.Exec
  rw [List.map_map]
  apply List.map_congr_left
  intro r _
  simp only [Function.comp_apply]
  split_ifs with hc
  · rw [scoped_selects] at hc
    simp only [Bool.and_eq_true, Option.isNone_iff_eq_none] at hc
    rw [hset r, hc.1]
  · rfl

/-- A restore request for a trashed File row answers 200 and changes nothing. -/
theorem restore_trashed_file_unchanged (eng : Engine) (h : Handler) (hv : h.DB.Valid)
    (f : File) (hf : f ∈ h.DB.files) (hdel : f.DeletedAt ≠ none)
    (hsc : gorm.scans f = true) (idStr : String)
    (hid : gorm.Atoi idStr = some (f.ID : Int)) (now : Time) :
    ToggleTrashHandler eng h "file" idStr "true" now = (⟨200, .status "ok"⟩, h) := by
  have hfirst := gorm.Statement.First_of_mem eng.textEq (eng.fileWhere h.DB)
    (gorm.Statement.Unscoped {}) hv.1.1 hf (unscoped_selects eng.textEq f) idStr hid
  rw [hsc] at hfirst
  have hself : gorm.Statement.Exec eng.textEq {} h.DB.files f.ID
      (fun r => { r with DeletedAt := none, UpdatedAt := now }) = h.DB.files := by
    apply gorm.Statement.Exec_eq_self
    intro r hr hrid
    have hrf : r = f := gorm.eq_of_ID_eq hv.1.1 hr hf hrid
    subst hrf
    rw [scoped_selects]
    cases hx : r.DeletedAt with
    | none => exact absurd hx hdel
    | some t => simp [gorm.Model.DeletedAt, hx]
  simp only [if_true] at hfirst
  simp only [ToggleTrashHandler, if_true, hfirst, hself]
  rfl

/-- A restore request never changes a deletion timestamp: the `UPDATE` it issues is scoped to
rows whose `deleted_at` is already null. -/
theorem restore_keeps_deletion_timestamps (eng : Engine) (h : Handler)
    (itemType idStr : String) (now : Time) :
    (ToggleTrashHandler eng h itemType idStr "true" now).2.DB.files.map File.DeletedAt
        = h.DB.files.map File.DeletedAt ∧
    (ToggleTrashHandler eng h itemType idStr "true" now).2.DB.folders.map Folder.DeletedAt
        = h.DB.folders.map Folder.DeletedAt := by
  simp only [ToggleTrashHandler, if_true]
  split_ifs <;> split <;>
    first
    | exact ⟨rfl, rfl⟩
    | exact ⟨scoped_Exec_keeps_DeletedAt (α := File) _ _ _ _ (fun _ => rfl), rfl⟩
    | exact ⟨rfl, scoped_Exec_keeps_DeletedAt (α := Folder) _ _ _ _ (fun _ => rfl)⟩

/-- C1, at the failing input: in the scenario upload A (5 bytes), create F, upload B
(3 bytes), trash A, restore A, the `used` value read from `StorageQuotaHandler` before the
first upload and after each upload, the trash and the restore is 0, 5, 8, 3, 3: the
restore request leaves A trashed, so the last reading is 3 and not 8. -/
theorem quota_scenario_readings :
    (responses sampleEngine unixJoin (boot uploads) quotaScenario).filterMap Response.used
      = [0, 5, 8, 3, 3] := by
  decide

/-- C4, at the failing input: trashing the live file A and then calling
`ToggleTrashHandler` with `restore=true` answers 200 twice, but the restore changes
nothing: A keeps the deletion timestamp of the trash request, is still listed by the trash
view and is still missing from the default view of its parent. The same happens to the
trashed folder F. -/
theorem trash_restore_cycle_leaves_file_trashed :
    rowA ∈ beforeTrash.DB.files ∧
    ToggleTrashHandler sampleEngine beforeTrash "file" "1" "" 13
      = (⟨200, .status "ok"⟩, afterTrash) ∧
    ToggleTrashHandler sampleEngine afterTrash "file" "1" "true" 14
      = (⟨200, .status "ok"⟩, afterTrash) ∧
    afterTrash.DB.files = [{ rowA with DeletedAt := some 13 }, rowB] ∧
    (BrowseHandler sampleEngine afterTrash "trash" "").files
      = [{ rowA with DeletedAt := some 13 }] ∧
    (BrowseHandler sampleEngine beforeTrash "" "").files = [rowA] ∧
    (BrowseHandler sampleEngine afterTrash "" "").files = [] ∧
    afterRestore = afterTrash ∧
    ToggleTrashHandler sampleEngine bothTrashed "folder" "1" "true" 16
      = (⟨200, .status "ok"⟩, bothTrashed) ∧
    bothTrashed.DB.folders = [{ rowF with DeletedAt := some 15 }] := by
  decide

/-! ## The theorems at concrete inputs -/

/-- C9, counterexample: file 1 exists in the catalog with its deletion timestamp set, and
`RenameHandler` for it answers 404 and leaves the state, its name included, unchanged. -/
theorem rename_trashed_file_not_found :
    afterTrash.DB.files = [{ rowA with DeletedAt := some 13 }, rowB] ∧
    RenameHandler sampleEngine afterTrash (some ⟨"new.txt"⟩) "file" "1" 20 =
      (⟨404, .error "File not found"⟩, afterTrash) := by
  decide

/-- C9, as amended, at concrete inputs: renaming the live file A, and the live folder G
whose stored parent wrapped. -/
theorem rename_live_rows_only_witness :
    beforeTrash.DB.Valid ∧ rowA ∈ beforeTrash.DB.files ∧ rowA.DeletedAt = none ∧
    RenameHandler sampleEngine beforeTrash (some ⟨"new.txt"⟩) "file" "1" 20 =
      (⟨200, .file { rowA with Name := "new.txt", UpdatedAt := 20 }⟩,
        beforeTrash.withFiles (beforeTrash.DB.files.map (fun r =>
          if r.ID = rowA.ID then { rowA with Name := "new.txt", UpdatedAt := 20 }
          else r))) ∧
    withG.DB.Valid ∧ rowG ∈ withG.DB.folders ∧ rowG.DeletedAt = none ∧
    RenameHandler sampleEngine withG (some ⟨"new"⟩) "folder" "2" 20 =
      (⟨404, .error "Folder not found"⟩, withG) :=
  ⟨by decide, by decide, rfl,
    ((rename_live_rows_only sampleEngine beforeTrash (by decide) "new.txt" 20).1 rowA
      (by decide) "1" (by decide)).1 rfl (by decide),
    by decide, by decide, rfl,
    ((rename_live_rows_only sampleEngine withG (by decide) "new" 20).2 rowG
      (by decide) "2" (by decide)).2.2 (by decide)⟩

/-- C2 at a concrete input: the 5-byte upload of A into the empty catalog. -/
theorem upload_then_download_roundtrip_witness :
    (boot uploads).DB.Valid ∧
    UploadHandler unixJoin (boot uploads) uploadA 10 = (⟨200, .file rowA⟩, afterA) ∧
    gorm.Atoi "1" = some (rowA.ID : Int) ∧
    ∃ hdr data, uploadA.file = some hdr ∧ hdr.Open = some ⟨data, false⟩ ∧
      rowA.Size = data.length ∧
      afterA.Storage.GetFile rowA.StoragePath = some data ∧
      DownloadHandler sampleEngine afterA "1" "true" =
        ⟨200, .stream (if "true" = "true" then
          "attachment; filename=\"" ++ rowA.Name ++ "\"" else "inline") data⟩ :=
  ⟨by decide, by decide, by decide,
    upload_then_download_roundtrip sampleEngine unixJoin (boot uploads) (by decide) uploadA 10
      rowA afterA (by decide) "1" (by decide) "true"⟩

/-- C3 at a concrete input: file A and folder F, both trashed, against the recent view. -/
theorem trashed_rows_only_in_trash_view_witness :
    (∀ f ∈ bothTrashed.DB.files, f.DeletedAt ≠ none → gorm.scans f = true) ∧
    (∀ d ∈ bothTrashed.DB.folders, d.DeletedAt ≠ none → gorm.scans d = true) ∧
    ({ rowA with DeletedAt := some 13 } : File) ∈ bothTrashed.DB.files ∧
    ({ rowA with DeletedAt := some 13 } : File)
      ∈ (BrowseHandler sampleEngine bothTrashed "trash" "").files ∧
    ({ rowA with DeletedAt := some 13 } : File)
      ∉ (BrowseHandler sampleEngine bothTrashed "recent" "").files ∧
    ({ rowF with DeletedAt := some 15 } : Folder) ∈ bothTrashed.DB.folders ∧
    ({ rowF with DeletedAt := some 15 } : Folder)
      ∈ (BrowseHandler sampleEngine bothTrashed "trash" "").folders ∧
    ({ rowF with DeletedAt := some 15 } : Folder)
      ∉ (BrowseHandler sampleEngine bothTrashed "recent" "").folders :=
  have key := trashed_rows_only_in_trash_view sampleEngine bothTrashed (by decide) (by decide)
    "recent" ""
  ⟨by decide, by decide, by decide,
    (key.1 _ (by decide) (by decide)).1,
    (key.1 _ (by decide) (by decide)).2 (by decide),
    by decide,
    (key.2.1 _ (by decide) (by decide)).1,
    (key.2.1 _ (by decide) (by decide)).2 (by decide)⟩

/-- C7 at a concrete input: starring file B, which lives inside F. -/
theorem starred_view_and_star_toggle_witness :
    (∀ a ∈ scenario.take 3, a.2.plain = true) ∧ gorm.Atoi "2" = some 2 ∧
    (ToggleStarHandler sampleEngine beforeTrash "file" "2" 20).1.status = 200 ∧
    (∃ f ∈ beforeTrash.DB.files, (f.ID : Int) = 2 ∧ f.DeletedAt = none ∧
      (ToggleStarHandler sampleEngine beforeTrash "file" "2" 20).2 =
        beforeTrash.withFiles (beforeTrash.DB.files.map (fun r =>
          if r.ID = f.ID then { r with IsStarred := !r.IsStarred, UpdatedAt := 20 }
          else r))) ∧
    (BrowseHandler sampleEngine (ToggleStarHandler sampleEngine beforeTrash "file" "2" 20).2
        "starred" "").files
      = [{ rowB with IsStarred := true, UpdatedAt := 20 }] :=
  ⟨by decide, by decide, by decide,
    ((starred_view_and_star_toggle sampleEngine unixJoin uploads (scenario.take 3)
      (by decide) beforeTrash rfl "" "file" "2" 2 (by decide) 20).2.2.2 (by decide)).1 rfl,
    by decide⟩

/-- C10 at a concrete input: A is uploaded, starred and a folder is created, then a second
file named like A is uploaded; a download of the first File returns the second's bytes. -/
theorem same_name_uploads_share_blob_witness :
    (boot uploads).DB.Valid ∧ (∀ a ∈ starThenFolder, a.2.plain = true) ∧
    UploadHandler unixJoin (boot uploads) uploadA 10 = (⟨200, .file rowA⟩, afterA) ∧
    UploadHandler unixJoin (run sampleEngine unixJoin afterA starThenFolder) uploadA2 20
      = (⟨200, .file rowA2⟩, afterA2) ∧
    rowA.StoragePath = rowA2.StoragePath ∧ rowA.ID ≠ rowA2.ID ∧
    rowA.Size = 5 ∧ rowA2.Size = 2 ∧
    rowA2 ∈ afterA2.DB.files ∧
    afterA2.Storage.GetFile rowA.StoragePath = some [9, 9] ∧
    (∃ r ∈ afterA2.DB.files, r.ID = rowA.ID ∧ r.Size = rowA.Size ∧
      r.StoragePath = rowA.StoragePath ∧
      (r.DeletedAt = none →
        DownloadHandler sampleEngine afterA2 "1" "" =
          ⟨200, .stream (if "" = "true" then
            "attachment; filename=\"" ++ r.Name ++ "\"" else "inline") [9, 9]⟩)) ∧
    DownloadHandler sampleEngine afterA2 "1" "" = ⟨200, .stream "inline" [9, 9]⟩ :=
  have key := same_name_uploads_share_blob sampleEngine unixJoin (boot uploads) (by decide)
    "a.txt" ⟨[1, 2, 3, 4, 5], false⟩ ⟨[9, 9], false⟩ "" "1" 10 20 rowA rowA2 afterA afterA2
    starThenFolder (by decide) (by decide) (by decide) "1" (by decide) ""
  ⟨by decide, by decide, by decide, by decide, key.1, key.2.1, key.2.2.1, key.2.2.2.1,
    key.2.2.2.2.1, key.2.2.2.2.2.1, key.2.2.2.2.2.2.1, by decide⟩

end GoDrive
